import Mathlib

/-!
Verification development for the supermercado-system repository.

The frontend (React) pages are embedded from `frontend/src/pages/SalesPage.jsx`
and the inline copy of the sales page in `App.jsx`.  The PostgreSQL schema
(`database/postgres/01_create_tables.sql`) and the MongoDB initialisation
script supply constraints.  The backend stock ledger, sale coordinator and
outbox relay worker are not present in the provided sources; those components
are modelled from the specification, as marked on each definition.

Monetary amounts are modelled as rationals, machine integers as `Int`/`Nat`.
-/

namespace Supermercado

/-! ## Frontend model: `SalesPage.jsx` -/

/-- A product as the sales page receives it from `GET /products`
(`id`, `name`, `sku`, `base_price`, `total_stock`). -/
structure Product where
  id : Nat
  name : String
  sku : String
  base_price : ℚ
  total_stock : Nat
deriving DecidableEq

/-- A cart line as built by `addToCart` in `SalesPage.jsx`
(lines 39-46: `product_id`, `name`, `sku`, `quantity`, `unit_price`,
`total_stock`). -/
structure CartItem where
  product_id : Nat
  name : String
  sku : String
  quantity : Nat
  unit_price : ℚ
  total_stock : Nat
deriving DecidableEq

/-- `addToCart` from `SalesPage.jsx` lines 26-49: if the product is already in
the cart and its quantity has reached `product.total_stock` the cart is left
unchanged (an error message is shown); otherwise the existing line's quantity
is incremented, or a fresh line with quantity 1 is appended. -/
def addToCart (cart : List CartItem) (product : Product) : List CartItem :=
  match cart.find? (fun item => item.product_id == product.id) with
  | some existing =>
    if existing.quantity ≥ product.total_stock then
      cart
    else
      cart.map (fun item =>
        if item.product_id == product.id then
          { item with quantity := item.quantity + 1 }
        else item)
  | none =>
    cart ++ [{ product_id := product.id, name := product.name,
               sku := product.sku, quantity := 1,
               unit_price := product.base_price,
               total_stock := product.total_stock }]

/-- `updateQuantity` from `SalesPage.jsx` lines 51-66: a new quantity `≤ 0`
removes the line; a quantity above the line's recorded `total_stock` leaves the
cart unchanged (error message); otherwise the line's quantity is replaced.
When the product is not in the cart and the quantity is positive the JS code
throws (`item.total_stock` on `undefined`), so the React state is unchanged;
we model that as returning the cart unchanged. -/
def updateQuantity (cart : List CartItem) (productId : Nat) (newQuantity : Int) :
    List CartItem :=
  if newQuantity ≤ 0 then
    cart.filter (fun item => !(item.product_id == productId))
  else
    match cart.find? (fun i => i.product_id == productId) with
    | none => cart
    | some item =>
      if newQuantity > (item.total_stock : Int) then
        cart
      else
        cart.map (fun it =>
          if it.product_id == productId then
            { it with quantity := newQuantity.toNat }
          else it)

/-- `calculateTotal` from `SalesPage.jsx` lines 68-72:
`subtotal = cart.reduce((sum, item) => sum + item.unit_price * item.quantity, 0)`,
`tax = subtotal * 0.16`, `total = subtotal + tax`. -/
def calculateTotal (cart : List CartItem) : ℚ × ℚ × ℚ :=
  let subtotal := cart.foldl (fun sum item => sum + item.unit_price * (item.quantity : ℚ)) 0
  let tax := subtotal * (16 / 100)
  (subtotal, tax, subtotal + tax)

/-- One element of `saleData.items` built in `handleCheckout`
(`SalesPage.jsx` lines 84-88). -/
structure SaleReqItem where
  product_id : Nat
  quantity : Nat
  unit_price : ℚ
deriving DecidableEq

/-- The `saleData` object posted to `/sales` (`SalesPage.jsx` lines 83-91). -/
structure SaleRequest where
  items : List SaleReqItem
  payment_method : String
  tax_rate : ℚ
deriving DecidableEq

/-- Construction of `saleData` in `handleCheckout` (`SalesPage.jsx`
lines 83-91): the cart lines are projected to `(product_id, quantity,
unit_price)` and `tax_rate` is the literal `0.16`. -/
def mkSaleData (cart : List CartItem) (paymentMethod : String) : SaleRequest :=
  { items := cart.map (fun item =>
      { product_id := item.product_id, quantity := item.quantity,
        unit_price := item.unit_price }),
    payment_method := paymentMethod,
    tax_rate := 16 / 100 }

/-- Effect of `handleCheckout` (`SalesPage.jsx` lines 74-102) on the cart
state: an empty cart aborts early (cart unchanged); on a successful POST the
cart is cleared (`setCart([])`, line 95); on an error the catch block only sets
the error message, leaving the cart as it was. -/
def handleCheckoutCart (cart : List CartItem) (response : Except String Nat) :
    List CartItem :=
  if cart.isEmpty then cart
  else
    match response with
    | .ok _ => []
    | .error _ => cart

/-! ## Frontend model: inline sales page in `App.jsx` -/

/-- A cart line as built by the inline `addToCart` in `App.jsx`
(lines 401-407): same fields as `CartItem` except that no `sku` is recorded. -/
structure AppCartItem where
  product_id : Nat
  name : String
  quantity : Nat
  unit_price : ℚ
  total_stock : Nat
deriving DecidableEq

/-- The inline `addToCart` in `App.jsx` lines 392-409: it increments an
existing line's quantity unconditionally — unlike `SalesPage.jsx` it performs
no `total_stock` check. -/
def appAddToCart (cart : List AppCartItem) (product : Product) : List AppCartItem :=
  match cart.find? (fun item => item.product_id == product.id) with
  | some _ =>
    cart.map (fun item =>
      if item.product_id == product.id then
        { item with quantity := item.quantity + 1 }
      else item)
  | none =>
    cart ++ [{ product_id := product.id, name := product.name,
               quantity := 1, unit_price := product.base_price,
               total_stock := product.total_stock }]

/-- Projection dropping the `sku` field, for comparing the two `addToCart`
implementations on a common cart representation. -/
def dropSku (item : CartItem) : AppCartItem :=
  { product_id := item.product_id, name := item.name,
    quantity := item.quantity, unit_price := item.unit_price,
    total_stock := item.total_stock }

/-- One user interaction with the point-of-sale cart. -/
inductive CartOp where
  | add (p : Product)
  | update (productId : Nat) (newQuantity : Int)
deriving DecidableEq

/-- Apply one cart interaction (`SalesPage.jsx`). -/
def applyCartOp (cart : List CartItem) : CartOp → List CartItem
  | .add p => addToCart cart p
  | .update productId newQuantity => updateQuantity cart productId newQuantity

/-- Run a sequence of cart interactions. -/
def runCartOps (cart : List CartItem) (ops : List CartOp) : List CartItem :=
  ops.foldl applyCartOp cart

/-- Well-formedness of the cart relative to a stock assignment `S`: at most
one line per product, each line's recorded `total_stock` is the product's
stock, and each quantity lies between 1 and that stock. -/
def cartWF (S : Nat → Nat) (cart : List CartItem) : Prop :=
  (cart.map (fun item => item.product_id)).Nodup ∧
  ∀ item ∈ cart, item.total_stock = S item.product_id ∧
    1 ≤ item.quantity ∧ item.quantity ≤ item.total_stock

/-- The products fed to `addToCart` have positive stock consistent with the
stock assignment `S` (the page loads products once, so each product id has one
`total_stock`; the UI only offers `addToCart` for `total_stock > 0`). -/
def opsStockOK (S : Nat → Nat) (ops : List CartOp) : Bool :=
  ops.all (fun op =>
    match op with
    | .add p => p.total_stock == S p.id && Nat.ble 1 p.total_stock
    | .update _ _ => true)

/-! ## Stock ledger (modelled from the spec)

The backend ledger code is not among the provided sources (the spec itself
notes the allocation code is absent); the definitions below are modelled from
spec §4.1, with the column types and constraints of `product_batches` in
`database/postgres/01_create_tables.sql` (quantity `INTEGER CHECK (quantity
>= 0)`, optional `expiration_date`, `received_date`, `UNIQUE(product_id,
batch_code)`).  Dates are encoded as naturals (e.g. `20251201`). -/

/-- Modelled from the spec: a row of `product_batches`
(`01_create_tables.sql` lines 41-51).  `quantity` is an `Int` so that the
schema's `CHECK (quantity >= 0)` is a provable invariant rather than a typing
artefact. -/
structure Batch where
  id : Nat
  product_id : Nat
  batch_code : String
  quantity : Int
  cost_per_unit : ℚ
  expiration_date : Option Nat
  received_date : Nat
deriving DecidableEq

/-- Modelled from the spec: the sort key for allocation order — expiration
date ascending with dateless batches after all dated ones, then received date
ascending, then batch id ascending. -/
def batchKey (b : Batch) : Nat × Nat × Nat × Nat :=
  match b.expiration_date with
  | some d => (0, d, b.received_date, b.id)
  | none => (1, 0, b.received_date, b.id)

/-- Lexicographic `≤` on quadruples of naturals, as a Boolean. -/
def keyLE : Nat × Nat × Nat × Nat → Nat × Nat × Nat × Nat → Bool
  | (a1, a2, a3, a4), (b1, b2, b3, b4) =>
    Nat.blt a1 b1 || (Nat.beq a1 b1 &&
      (Nat.blt a2 b2 || (Nat.beq a2 b2 &&
        (Nat.blt a3 b3 || (Nat.beq a3 b3 && Nat.ble a4 b4)))))

/-- Modelled from the spec: the deterministic total order on batches used for
allocation (and lock acquisition). -/
def batchLe (a b : Batch) : Prop := keyLE (batchKey a) (batchKey b) = true

instance : DecidableRel batchLe := fun a b => by
  unfold batchLe; infer_instance

/-- Modelled from the spec: "select all batches of the product with
quantity > 0" ordered by the deterministic total order. -/
def eligibleBatches (batches : List Batch) (productId : Nat) : List Batch :=
  List.insertionSort batchLe
    (batches.filter (fun b => b.product_id == productId && b.quantity > 0))

/-- Modelled from the spec: greedily take from each batch in order until the
requested quantity is satisfied; `none` when the batches cannot cover the
request.  Returns the `(batch_id, quantity_taken)` pairs. -/
def greedyTake (l : List Batch) (q : Int) : Option (List (Nat × Int)) :=
  match l with
  | [] => if q ≤ 0 then some [] else none
  | b :: rest =>
    if q ≤ 0 then some []
    else
      match greedyTake rest (q - min b.quantity q) with
      | some plan => some ((b.id, min b.quantity q) :: plan)
      | none => none

/-- Ledger and coordinator errors (spec §4.1, §4.2, §7);
`CheckViolation` models the schema's `CHECK` constraints rejecting a write. -/
inductive LedgerError where
  | InsufficientStock
  | DuplicateBatch
  | InvalidAdjustment
  | BatchNotFound
  | InvalidCart
  | CheckViolation
deriving DecidableEq

/-- Modelled from the spec: `allocate(product_id, quantity) → list of
(batch_id, quantity_taken)`, or `InsufficientStock`. -/
def allocate (batches : List Batch) (productId : Nat) (q : Int) :
    Except LedgerError (List (Nat × Int)) :=
  match greedyTake (eligibleBatches batches productId) q with
  | some plan => .ok plan
  | none => .error .InsufficientStock

/-- The quantity an allocation plan takes from the batch with id `i`
(0 when the plan does not touch it). -/
def lookupTake (plan : List (Nat × Int)) (i : Nat) : Int :=
  match plan.find? (fun e => e.1 == i) with
  | some e => e.2
  | none => 0

/-- Modelled from the spec: apply an allocation plan, decrementing each
touched batch by its `quantity_taken`. -/
def applyPlan (batches : List Batch) (plan : List (Nat × Int)) : List Batch :=
  batches.map (fun b => { b with quantity := b.quantity - lookupTake plan b.id })

/-- Total quantity of a list of batches. -/
def totalQty (batches : List Batch) : Int :=
  (batches.map (fun b => b.quantity)).sum

/-- Total quantity taken by an allocation plan. -/
def planTotal (plan : List (Nat × Int)) : Int :=
  (plan.map (fun e => e.2)).sum

/-- Sum of the quantities of a product's eligible (quantity > 0) batches. -/
def eligibleTotal (batches : List Batch) (productId : Nat) : Int :=
  totalQty (batches.filter (fun b => b.product_id == productId && b.quantity > 0))

/-- Modelled from the spec: the state change of one allocation — the plan is
applied on success, and on failure "no partial decrement is applied". -/
def allocateStep (batches : List Batch) (productId : Nat) (q : Int) : List Batch :=
  match allocate batches productId q with
  | .ok plan => applyPlan batches plan
  | .error _ => batches

/-- Whether an allocation request succeeds against a batch state. -/
def allocSuccess (batches : List Batch) (r : Nat × Int) : Bool :=
  match allocate batches r.1 r.2 with
  | .ok _ => true
  | .error _ => false

/-- Run a sequence of allocation requests `(product_id, quantity)`; the
spec's lock discipline serialises concurrent allocations, so an interleaved
execution is one such sequence. -/
def allocRun (batches : List Batch) (requests : List (Nat × Int)) : List Batch :=
  requests.foldl (fun bs r => allocateStep bs r.1 r.2) batches

/-- Total quantity successfully allocated over a sequence of requests. -/
def allocatedSum : List Batch → List (Nat × Int) → Int
  | _, [] => 0
  | batches, r :: rest =>
    (if allocSuccess batches r then r.2 else 0) +
      allocatedSum (allocateStep batches r.1 r.2) rest

/-- Batch X of the spec's Scenario A: expires 2025-12-01, quantity 5. -/
def scenarioX : Batch :=
  { id := 1, product_id := 7, batch_code := "X", quantity := 5,
    cost_per_unit := 1, expiration_date := some 20251201,
    received_date := 20251101 }

/-- Batch Y of the spec's Scenario A: expires 2025-12-10, quantity 10. -/
def scenarioY : Batch :=
  { id := 2, product_id := 7, batch_code := "Y", quantity := 10,
    cost_per_unit := 1, expiration_date := some 20251210,
    received_date := 20251101 }

/-- The single batch of the spec's Scenario B, quantity 10. -/
def scenarioB : Batch :=
  { id := 1, product_id := 5, batch_code := "B", quantity := 10,
    cost_per_unit := 1, expiration_date := none, received_date := 20250101 }

/-! ## Lemmas about greedy allocation -/

theorem totalQty_nonneg (l : List Batch) (h : ∀ b ∈ l, 0 ≤ b.quantity) :
    0 ≤ totalQty l := by
  refine List.sum_nonneg ?_
  intro x hx
  rcases List.mem_map.mp hx with ⟨b, hb, rfl⟩
  exact h b hb

theorem greedyTake_eq_none_iff (l : List Batch) (q : Int)
    (h : ∀ b ∈ l, 0 ≤ b.quantity) :
    greedyTake l q = none ↔ totalQty l < q := by
  induction l generalizing q with
  | nil =>
    by_cases hq : q ≤ 0
    · simp [greedyTake, totalQty, hq]
    · simp [greedyTake, totalQty, hq]
      omega
  | cons b rest ih =>
    have hb : 0 ≤ b.quantity := h b (List.mem_cons_self b rest)
    have hrest : ∀ x ∈ rest, 0 ≤ x.quantity := fun x hx => h x (List.mem_cons_of_mem b hx)
    have htr : 0 ≤ totalQty rest := totalQty_nonneg rest hrest
    have htot : totalQty (b :: rest) = b.quantity + totalQty rest := by
      simp [totalQty]
    by_cases hq : q ≤ 0
    · simp only [greedyTake, if_pos hq]
      constructor
      · intro hcontra; exact absurd hcontra (by simp)
      · intro hlt; omega
    · simp only [greedyTake, if_neg hq]
      have hiff := ih (q - min b.quantity q) hrest
      rcases hres : greedyTake rest (q - min b.quantity q) with _ | plan
      · simp only [hres] at hiff
        have hlt : totalQty rest < q - min b.quantity q := by simpa using hiff
        simp only [hres]
        constructor
        · intro _
          rw [htot]
          rcases le_total b.quantity q with hle | hle
          · rw [min_eq_left hle] at hlt; omega
          · rw [min_eq_right hle] at hlt; omega
        · intro _; trivial
      · simp only [hres] at hiff
        have hnone : ¬ totalQty rest < q - min b.quantity q := by
          intro hc
          exact absurd (hiff.mpr hc) (by simp)
        simp only [hres]
        constructor
        · intro hc; exact absurd hc (by simp)
        · intro hc
          exfalso
          rw [htot] at hc
          rcases le_total b.quantity q with hle | hle
          · rw [min_eq_left hle] at hnone; omega
          · rw [min_eq_right hle] at hnone; omega

theorem greedyTake_total (l : List Batch) (q : Int) (plan : List (Nat × Int))
    (hq : 0 ≤ q) (h : greedyTake l q = some plan) : planTotal plan = q := by
  induction l generalizing q plan with
  | nil =>
    by_cases hq0 : q ≤ 0
    · simp [greedyTake, hq0] at h
      subst h; simp [planTotal]; omega
    · simp [greedyTake, hq0] at h
  | cons b rest ih =>
    by_cases hq0 : q ≤ 0
    · simp [greedyTake, hq0] at h
      subst h; simp [planTotal]; omega
    · simp only [greedyTake, if_neg hq0] at h
      rcases hres : greedyTake rest (q - min b.quantity q) with _ | plan2
      · simp [hres] at h
      · simp [hres] at h
        have hmin : min b.quantity q ≤ q := min_le_right _ _
        have := ih (q - min b.quantity q) plan2 (by omega) hres
        subst h
        simp [planTotal] at this ⊢
        omega

theorem greedyTake_entries (l : List Batch) (q : Int) (plan : List (Nat × Int))
    (hl : ∀ b ∈ l, 0 ≤ b.quantity) (hq : 0 ≤ q)
    (h : greedyTake l q = some plan) :
    ∀ e ∈ plan, ∃ b ∈ l, b.id = e.1 ∧ 0 ≤ e.2 ∧ e.2 ≤ b.quantity := by
  induction l generalizing q plan with
  | nil =>
    by_cases hq0 : q ≤ 0
    · simp [greedyTake, hq0] at h; subst h; simp
    · simp [greedyTake, hq0] at h
  | cons b rest ih =>
    by_cases hq0 : q ≤ 0
    · simp [greedyTake, hq0] at h; subst h; simp
    · simp only [greedyTake, if_neg hq0] at h
      rcases hres : greedyTake rest (q - min b.quantity q) with _ | plan2
      · simp [hres] at h
      · simp [hres] at h
        subst h
        have hb : 0 ≤ b.quantity := hl b (List.mem_cons_self b rest)
        have hrest : ∀ x ∈ rest, 0 ≤ x.quantity :=
          fun x hx => hl x (List.mem_cons_of_mem b hx)
        have hmin : min b.quantity q ≤ q := min_le_right _ _
        have hrec := ih (q - min b.quantity q) plan2 hrest (by omega) hres
        intro e he
        rcases List.mem_cons.mp he with rfl | he2
        · exact ⟨b, List.mem_cons_self b rest, rfl, by constructor <;> [omega; exact min_le_left _ _]⟩
        · rcases hrec e he2 with ⟨b2, hb2, hid, hrange⟩
          exact ⟨b2, List.mem_cons_of_mem b hb2, hid, hrange⟩

theorem greedyTake_ids_sublist (l : List Batch) (q : Int) (plan : List (Nat × Int))
    (h : greedyTake l q = some plan) :
    (plan.map (fun e => e.1)).Sublist (l.map (fun b => b.id)) := by
  induction l generalizing q plan with
  | nil =>
    by_cases hq0 : q ≤ 0
    · simp [greedyTake, hq0] at h; subst h; simp
    · simp [greedyTake, hq0] at h
  | cons b rest ih =>
    by_cases hq0 : q ≤ 0
    · simp [greedyTake, hq0] at h; subst h; simp
    · simp only [greedyTake, if_neg hq0] at h
      rcases hres : greedyTake rest (q - min b.quantity q) with _ | plan2
      · simp [hres] at h
      · simp [hres] at h
        subst h
        simpa using List.Sublist.cons₂ b.id (ih (q - min b.quantity q) plan2 hres)

theorem sum_map_sub (l : List Batch) (f g : Batch → Int) :
    (l.map (fun b => f b - g b)).sum = (l.map f).sum - (l.map g).sum := by
  induction l with
  | nil => simp
  | cons b rest ih => simp [ih]; ring

theorem lookupTake_cons (e : Nat × Int) (plan : List (Nat × Int)) (i : Nat) :
    lookupTake (e :: plan) i = if e.1 = i then e.2 else lookupTake plan i := by
  by_cases h : e.1 = i
  · simp [lookupTake, List.find?, h]
  · have hb : (e.1 == i) = false := by simp [h]
    simp [lookupTake, List.find?, hb, h]

theorem lookupTake_filter_ne (plan : List (Nat × Int)) (i j : Nat) (hij : i ≠ j) :
    lookupTake (plan.filter (fun e => !(e.1 == j))) i = lookupTake plan i := by
  induction plan with
  | nil => simp [lookupTake]
  | cons e rest ih =>
    by_cases hj : e.1 = j
    · rw [List.filter_cons_of_neg (by simp [hj])]
      rw [lookupTake_cons]
      rw [if_neg (by omega), ih]
    · rw [List.filter_cons_of_pos (by simp [hj])]
      rw [lookupTake_cons, lookupTake_cons]
      by_cases hi : e.1 = i
      · simp [hi]
      · simp [hi, ih]

theorem lookupTake_eq_zero (plan : List (Nat × Int)) (i : Nat)
    (h : i ∉ plan.map (fun e => e.1)) : lookupTake plan i = 0 := by
  induction plan with
  | nil => simp [lookupTake]
  | cons e rest ih =>
    simp only [List.map_cons, List.mem_cons] at h
    push_neg at h
    rw [lookupTake_cons, if_neg (fun hc => h.1 hc.symm), ih h.2]

theorem planTotal_split (plan : List (Nat × Int)) (i : Nat)
    (hP : (plan.map (fun e => e.1)).Nodup) :
    planTotal plan = lookupTake plan i + planTotal (plan.filter (fun e => !(e.1 == i))) := by
  induction plan with
  | nil => simp [planTotal, lookupTake]
  | cons e rest ih =>
    simp only [List.map_cons, List.nodup_cons] at hP
    rcases hP with ⟨hnotin, hrestdup⟩
    by_cases hi : e.1 = i
    · rw [List.filter_cons_of_neg (by simp [hi])]
      rw [lookupTake_cons, if_pos hi]
      have hfix : rest.filter (fun e2 => !(e2.1 == i)) = rest := by
        refine List.filter_eq_self.mpr ?_
        intro a ha
        have hne : a.1 ≠ i := by
          intro hc
          exact hnotin (List.mem_map.mpr ⟨a, ha, by omega⟩)
        simp [hne]
      have hExp : planTotal (e :: rest) = e.2 + planTotal rest := by simp [planTotal]
      rw [hExp, hfix]
    · rw [List.filter_cons_of_pos (by simp [hi])]
      rw [lookupTake_cons, if_neg hi]
      have h1 : planTotal (e :: rest) = e.2 + planTotal rest := by simp [planTotal]
      have h2 : planTotal (e :: rest.filter (fun e2 => !(e2.1 == i))) =
          e.2 + planTotal (rest.filter (fun e2 => !(e2.1 == i))) := by simp [planTotal]
      rw [h1, h2, ih hrestdup]
      ring

theorem sum_lookupTake (batches : List Batch) (plan : List (Nat × Int))
    (hB : (batches.map (fun b => b.id)).Nodup)
    (hP : (plan.map (fun e => e.1)).Nodup)
    (hsub : ∀ e ∈ plan, e.1 ∈ batches.map (fun b => b.id)) :
    (batches.map (fun b => lookupTake plan b.id)).sum = planTotal plan := by
  induction batches generalizing plan with
  | nil =>
    have hnil : plan = [] := by
      cases plan with
      | nil => rfl
      | cons e rest => exact absurd (hsub e (List.mem_cons_self e rest)) (by simp)
    simp [hnil, planTotal]
  | cons b rest ih =>
    simp only [List.map_cons, List.nodup_cons] at hB
    rcases hB with ⟨hbnotin, hrestdup⟩
    have hsplit := planTotal_split plan b.id hP
    have hrw : ∀ r ∈ rest, lookupTake plan r.id =
        lookupTake (plan.filter (fun e => !(e.1 == b.id))) r.id := by
      intro r hr
      have hne : r.id ≠ b.id := by
        intro hc
        exact hbnotin (List.mem_map.mpr ⟨r, hr, hc⟩)
      exact (lookupTake_filter_ne plan r.id b.id hne).symm
    have hmapeq : rest.map (fun r => lookupTake plan r.id) =
        rest.map (fun r => lookupTake (plan.filter (fun e => !(e.1 == b.id))) r.id) :=
      List.map_congr_left hrw
    have hPf : ((plan.filter (fun e => !(e.1 == b.id))).map (fun e => e.1)).Nodup :=
      hP.sublist ((List.filter_sublist plan).map (fun e => e.1))
    have hsubf : ∀ e ∈ plan.filter (fun e => !(e.1 == b.id)),
        e.1 ∈ rest.map (fun r => r.id) := by
      intro e he
      have hmem := List.mem_of_mem_filter he
      have hprop := List.of_mem_filter he
      have hne : e.1 ≠ b.id := by simpa using hprop
      have := hsub e hmem
      simp only [List.map_cons, List.mem_cons] at this
      rcases this with hc | hc
      · exact absurd hc hne
      · exact hc
    have hIH := ih (plan.filter (fun e => !(e.1 == b.id))) hrestdup hPf hsubf
    simp only [List.map_cons, List.sum_cons]
    rw [hmapeq, hIH, hsplit]

theorem applyPlan_totalQty (batches : List Batch) (plan : List (Nat × Int))
    (hB : (batches.map (fun b => b.id)).Nodup)
    (hP : (plan.map (fun e => e.1)).Nodup)
    (hsub : ∀ e ∈ plan, e.1 ∈ batches.map (fun b => b.id)) :
    totalQty (applyPlan batches plan) = totalQty batches - planTotal plan := by
  unfold totalQty applyPlan
  rw [List.map_map]
  have : ((fun b : Batch => b.quantity) ∘
      (fun b : Batch => { b with quantity := b.quantity - lookupTake plan b.id })) =
      fun b : Batch => b.quantity - lookupTake plan b.id := rfl
  rw [this, sum_map_sub, sum_lookupTake batches plan hB hP hsub]

theorem applyPlan_ids (batches : List Batch) (plan : List (Nat × Int)) :
    (applyPlan batches plan).map (fun b => b.id) = batches.map (fun b => b.id) := by
  unfold applyPlan
  rw [List.map_map]
  rfl

theorem applyPlan_mem (batches : List Batch) (plan : List (Nat × Int)) (b : Batch)
    (hb : b ∈ applyPlan batches plan) :
    ∃ b0 ∈ batches, b = { b0 with quantity := b0.quantity - lookupTake plan b0.id } := by
  unfold applyPlan at hb
  rcases List.mem_map.mp hb with ⟨b0, hb0, rfl⟩
  exact ⟨b0, hb0, rfl⟩

/-! ## Allocation-level lemmas -/

theorem mem_eligible (batches : List Batch) (productId : Nat) (b : Batch)
    (hb : b ∈ eligibleBatches batches productId) :
    b ∈ batches ∧ b.product_id = productId ∧ 0 < b.quantity := by
  unfold eligibleBatches at hb
  have hmem := (List.perm_insertionSort batchLe _).mem_iff.mp hb
  have h1 := List.mem_of_mem_filter hmem
  have h2 := List.of_mem_filter hmem
  simp only [Bool.and_eq_true, beq_iff_eq, decide_eq_true_eq] at h2
  exact ⟨h1, h2.1, h2.2⟩

theorem eligible_perm (batches : List Batch) (productId : Nat) :
    (eligibleBatches batches productId).Perm
      (batches.filter (fun b => b.product_id == productId && b.quantity > 0)) :=
  List.perm_insertionSort batchLe _

theorem eligible_total (batches : List Batch) (productId : Nat) :
    totalQty (eligibleBatches batches productId) = eligibleTotal batches productId := by
  unfold totalQty eligibleTotal
  exact ((eligible_perm batches productId).map (fun b => b.quantity)).sum_eq

theorem eligible_nonneg (batches : List Batch) (productId : Nat) :
    ∀ b ∈ eligibleBatches batches productId, 0 ≤ b.quantity := by
  intro b hb
  exact le_of_lt (mem_eligible batches productId b hb).2.2

theorem eligible_ids_nodup (batches : List Batch) (productId : Nat)
    (hB : (batches.map (fun b => b.id)).Nodup) :
    ((eligibleBatches batches productId).map (fun b => b.id)).Nodup := by
  have hfil : ((batches.filter
      (fun b => b.product_id == productId && b.quantity > 0)).map
      (fun b => b.id)).Nodup :=
    hB.sublist ((List.filter_sublist batches).map (fun b => b.id))
  exact ((eligible_perm batches productId).map (fun b => b.id)).nodup_iff.mpr hfil

theorem batch_eq_of_id_eq (l : List Batch) (hB : (l.map (fun b => b.id)).Nodup)
    (a b : Batch) (ha : a ∈ l) (hb : b ∈ l) (hid : a.id = b.id) : a = b :=
  List.inj_on_of_nodup_map hB ha hb hid

theorem allocate_ok_of_greedy (batches : List Batch) (productId : Nat) (q : Int)
    (plan : List (Nat × Int))
    (h : allocate batches productId q = .ok plan) :
    greedyTake (eligibleBatches batches productId) q = some plan := by
  unfold allocate at h
  rcases hres : greedyTake (eligibleBatches batches productId) q with _ | plan2
  · rw [hres] at h; exact absurd h (by simp)
  · rw [hres] at h
    simp only [Except.ok.injEq] at h
    rw [h]

theorem allocate_error_iff (batches : List Batch) (productId : Nat) (q : Int) :
    allocate batches productId q = .error .InsufficientStock ↔
      eligibleTotal batches productId < q := by
  unfold allocate
  have hiff := greedyTake_eq_none_iff (eligibleBatches batches productId) q
    (eligible_nonneg batches productId)
  rw [eligible_total] at hiff
  rcases hres : greedyTake (eligibleBatches batches productId) q with _ | plan
  · rw [hres] at hiff
    simp only [hres]
    simp only [true_iff] at hiff
    simp [hiff]
  · rw [hres] at hiff
    simp only [hres]
    constructor
    · intro hc; exact absurd hc (by simp)
    · intro hc
      exact absurd (hiff.mpr hc) (by simp)

theorem allocate_ok_planTotal (batches : List Batch) (productId : Nat) (q : Int)
    (plan : List (Nat × Int)) (hq : 0 ≤ q)
    (h : allocate batches productId q = .ok plan) : planTotal plan = q :=
  greedyTake_total _ q plan hq (allocate_ok_of_greedy batches productId q plan h)

theorem allocate_ok_plan_ids (batches : List Batch) (productId : Nat) (q : Int)
    (plan : List (Nat × Int)) (hB : (batches.map (fun b => b.id)).Nodup)
    (h : allocate batches productId q = .ok plan) :
    (plan.map (fun e => e.1)).Nodup ∧
      ∀ e ∈ plan, e.1 ∈ batches.map (fun b => b.id) := by
  have hg := allocate_ok_of_greedy batches productId q plan h
  have hsub := greedyTake_ids_sublist _ q plan hg
  constructor
  · exact (eligible_ids_nodup batches productId hB).sublist hsub
  · intro e he
    have : e.1 ∈ (eligibleBatches batches productId).map (fun b => b.id) :=
      hsub.subset (List.mem_map.mpr ⟨e, he, rfl⟩)
    rcases List.mem_map.mp this with ⟨b, hb, hid⟩
    exact List.mem_map.mpr ⟨b, (mem_eligible batches productId b hb).1, hid⟩

theorem allocate_ok_lookup_le (batches : List Batch) (productId : Nat) (q : Int)
    (plan : List (Nat × Int)) (hB : (batches.map (fun b => b.id)).Nodup)
    (hnn : ∀ b ∈ batches, 0 ≤ b.quantity) (hq : 0 ≤ q)
    (h : allocate batches productId q = .ok plan) :
    ∀ b ∈ batches, 0 ≤ lookupTake plan b.id ∧ lookupTake plan b.id ≤ b.quantity := by
  intro b hb
  have hg := allocate_ok_of_greedy batches productId q plan h
  rcases hfind : plan.find? (fun e => e.1 == b.id) with _ | e
  · simp only [lookupTake, hfind]
    exact ⟨le_refl 0, hnn b hb⟩
  · simp only [lookupTake, hfind]
    have hmem := List.mem_of_find?_eq_some hfind
    have hpred := List.find?_some hfind
    have hide : e.1 = b.id := by simpa using hpred
    rcases greedyTake_entries _ q plan (eligible_nonneg batches productId) hq hg e hmem
      with ⟨b2, hb2, hid2, hge, hle⟩
    have hb2mem := (mem_eligible batches productId b2 hb2).1
    have : b2 = b := batch_eq_of_id_eq batches hB b2 b hb2mem hb (by rw [hid2, hide])
    subst this
    exact ⟨hge, hle⟩

theorem allocate_ok_totalQty (batches : List Batch) (productId : Nat) (q : Int)
    (plan : List (Nat × Int)) (hB : (batches.map (fun b => b.id)).Nodup)
    (hq : 0 ≤ q) (h : allocate batches productId q = .ok plan) :
    totalQty (applyPlan batches plan) = totalQty batches - q := by
  rcases allocate_ok_plan_ids batches productId q plan hB h with ⟨hP, hsub⟩
  rw [applyPlan_totalQty batches plan hB hP hsub,
    allocate_ok_planTotal batches productId q plan hq h]

theorem allocate_ok_nonneg (batches : List Batch) (productId : Nat) (q : Int)
    (plan : List (Nat × Int)) (hB : (batches.map (fun b => b.id)).Nodup)
    (hnn : ∀ b ∈ batches, 0 ≤ b.quantity) (hq : 0 ≤ q)
    (h : allocate batches productId q = .ok plan) :
    ∀ b ∈ applyPlan batches plan, 0 ≤ b.quantity := by
  intro b hb
  rcases applyPlan_mem batches plan b hb with ⟨b0, hb0, rfl⟩
  have := allocate_ok_lookup_le batches productId q plan hB hnn hq h b0 hb0
  simp only
  omega

/-! ## Sale transaction coordinator and outbox (modelled from the spec)

The coordinator and outbox worker are not among the provided sources; these
definitions follow spec §3, §4.2 and §4.3 and the `inventory_movements` /
`outbox_events` tables of `01_create_tables.sql`. -/

/-- Movement types, the closed enumeration of the schema's
`CHECK (movement_type IN ('ENTRY', 'SALE', 'ADJUSTMENT', 'EXPIRATION'))`. -/
inductive MovementType where
  | ENTRY
  | SALE
  | ADJUSTMENT
  | EXPIRATION
deriving DecidableEq

/-- Modelled from the spec: a row of `inventory_movements`; `reference_id`
carries the sale id for SALE movements. -/
structure Movement where
  product_batch_id : Nat
  movement_type : MovementType
  quantity : Int
  user_id : Nat
  reference_id : Option Nat
  note : String
deriving DecidableEq

/-- Modelled from the spec: one line allocation of a `Sale` (product,
quantity, unit price, batch breakdown). -/
structure SaleLine where
  product_id : Nat
  quantity : Int
  unit_price : ℚ
  batches : List (Nat × Int)
deriving DecidableEq

/-- Modelled from the spec: the immutable `Sale` aggregate built by the
coordinator. -/
structure Sale where
  id : Nat
  cashier_id : Nat
  lines : List SaleLine
  subtotal : ℚ
  tax : ℚ
  grand_total : ℚ
  payment_method : String
deriving DecidableEq

/-- Outbox statuses, the closed enumeration of the schema's
`CHECK (status IN ('PENDING', 'PROCESSING', 'COMPLETED', 'FAILED'))`. -/
inductive OutboxStatus where
  | PENDING
  | PROCESSING
  | COMPLETED
  | FAILED
deriving DecidableEq

/-- The string stored in the `status` column for each status value. -/
def statusString : OutboxStatus → String
  | .PENDING => "PENDING"
  | .PROCESSING => "PROCESSING"
  | .COMPLETED => "COMPLETED"
  | .FAILED => "FAILED"

/-- The schema's status `CHECK` constraint (`01_create_tables.sql` line 78)
as a predicate on the stored string. -/
def sqlStatusCheck (s : String) : Bool :=
  s == "PENDING" || s == "PROCESSING" || s == "COMPLETED" || s == "FAILED"

/-- Modelled from the spec: a row of `outbox_events`; the payload is the
serialized `Sale`, modelled as the sale itself. -/
structure OutboxEvent where
  id : Nat
  event_type : String
  aggregate_id : Nat
  payload : Sale
  status : OutboxStatus
  retry_count : Nat
  error_message : Option String
  processed_at : Option Nat
deriving DecidableEq

/-- Modelled from the spec: the authoritative primary-store state — batches,
the immutable movement audit log, the outbox table, the committed sales, and
the id sequences (`SERIAL` columns / fresh sale ids). -/
structure LedgerState where
  batches : List Batch
  movements : List Movement
  outbox : List OutboxEvent
  sales : List Sale
  nextSaleId : Nat
  nextBatchId : Nat
  nextEventId : Nat
deriving DecidableEq

/-- The empty initial state. -/
def initState : LedgerState :=
  { batches := [], movements := [], outbox := [], sales := [],
    nextSaleId := 0, nextBatchId := 0, nextEventId := 0 }

/-- A concrete batch used in concrete instantiations. -/
def demoBatch : Batch :=
  { id := 0, product_id := 1, batch_code := "L1", quantity := 5,
    cost_per_unit := 2, expiration_date := none, received_date := 20250101 }

/-- A concrete one-batch state used in concrete instantiations. -/
def demoState : LedgerState :=
  { initState with batches := [demoBatch], nextBatchId := 1 }

/-- A cart line as received by `POST /sales` (`saleData.items` in
`SalesPage.jsx`): `product_id`, `quantity`, `unit_price`. -/
structure CartLine where
  product_id : Nat
  quantity : Int
  unit_price : ℚ
deriving DecidableEq

/-- Modelled from the spec: `entry` inserts a new batch and an ENTRY movement;
fails with `DuplicateBatch` when the `(product, batch_code)` pair already
exists, and with `CheckViolation` when the schema's `CHECK (quantity >= 0)`
would reject the row. -/
def entry (st : LedgerState) (productId : Nat) (batchCode : String) (qty : Int)
    (cost : ℚ) (expiration : Option Nat) (received : Nat) (note : String)
    (user : Nat) : Except LedgerError LedgerState :=
  if st.batches.any (fun b => b.product_id == productId && b.batch_code == batchCode) then
    .error .DuplicateBatch
  else if qty < 0 then
    .error .CheckViolation
  else
    .ok { st with
      batches := st.batches ++
        [{ id := st.nextBatchId, product_id := productId, batch_code := batchCode,
           quantity := qty, cost_per_unit := cost, expiration_date := expiration,
           received_date := received }],
      movements := st.movements ++
        [{ product_batch_id := st.nextBatchId, movement_type := .ENTRY,
           quantity := qty, user_id := user, reference_id := none, note := note }],
      nextBatchId := st.nextBatchId + 1 }

/-- Modelled from the spec: `adjustment` applies a delta to a batch's quantity
and records an ADJUSTMENT movement; fails with `InvalidAdjustment` when the
result would be negative. -/
def adjustment (st : LedgerState) (batchId : Nat) (delta : Int) (note : String)
    (user : Nat) : Except LedgerError LedgerState :=
  match st.batches.find? (fun b => b.id == batchId) with
  | none => .error .BatchNotFound
  | some b =>
    if b.quantity + delta < 0 then
      .error .InvalidAdjustment
    else
      .ok { st with
        batches := st.batches.map (fun x =>
          if x.id == batchId then { x with quantity := x.quantity + delta } else x),
        movements := st.movements ++
          [{ product_batch_id := batchId, movement_type := .ADJUSTMENT,
             quantity := delta, user_id := user, reference_id := none,
             note := note }] }

/-- Modelled from the spec: allocate every cart line in order, threading the
batch state; any failing line fails the whole run. -/
def allocateLines (batches : List Batch) :
    List CartLine → Except LedgerError (List SaleLine × List Batch)
  | [] => .ok ([], batches)
  | line :: rest =>
    match allocate batches line.product_id line.quantity with
    | .error e => .error e
    | .ok plan =>
      match allocateLines (applyPlan batches plan) rest with
      | .error e => .error e
      | .ok (lines, finalBatches) =>
        .ok ({ product_id := line.product_id, quantity := line.quantity,
               unit_price := line.unit_price, batches := plan } :: lines,
             finalBatches)

/-- Modelled from the spec: the coordinator's totals —
`subtotal = Σ(unit_price × quantity)`, `tax = subtotal × tax_rate`,
`grand_total = subtotal + tax`. -/
def saleTotals (cart : List CartLine) (taxRate : ℚ) : ℚ × ℚ × ℚ :=
  let subtotal := (cart.map (fun l => l.unit_price * (l.quantity : ℚ))).sum
  let tax := subtotal * taxRate
  (subtotal, tax, subtotal + tax)

/-- Modelled from the spec: `checkout` — validates the cart (the coordinator
"validates a cart": an empty cart or a line with quantity < 1 is rejected),
allocates every line, writes one negative-delta SALE movement per
`(batch_id, quantity_taken)` pair with `reference_id` the fresh sale id,
builds the immutable `Sale`, and writes exactly one PENDING `OutboxEvent`
with `aggregate_id` the sale id — all as one atomic transaction. -/
def checkout (st : LedgerState) (cart : List CartLine) (paymentMethod : String)
    (taxRate : ℚ) (cashier : Nat) : Except LedgerError (Sale × LedgerState) :=
  if cart.isEmpty then .error .InvalidCart
  else if cart.any (fun l => l.quantity < 1) then .error .InvalidCart
  else
    match allocateLines st.batches cart with
    | .error e => .error e
    | .ok (lines, newBatches) =>
      let saleId := st.nextSaleId
      let totals := saleTotals cart taxRate
      let sale : Sale :=
        { id := saleId, cashier_id := cashier, lines := lines,
          subtotal := totals.1, tax := totals.2.1, grand_total := totals.2.2,
          payment_method := paymentMethod }
      let movs : List Movement := lines.flatMap (fun l =>
        l.batches.map (fun e =>
          { product_batch_id := e.1, movement_type := .SALE, quantity := -e.2,
            user_id := cashier, reference_id := some saleId, note := "" }))
      let evt : OutboxEvent :=
        { id := st.nextEventId, event_type := "sale_created",
          aggregate_id := saleId, payload := sale, status := .PENDING,
          retry_count := 0, error_message := none, processed_at := none }
      .ok (sale, { st with
        batches := newBatches,
        movements := st.movements ++ movs,
        outbox := st.outbox ++ [evt],
        sales := st.sales ++ [sale],
        nextSaleId := saleId + 1,
        nextEventId := st.nextEventId + 1 })

/-- The state after a checkout attempt: the transaction's state on success,
the unchanged original state on abort. -/
def checkoutStep (st : LedgerState) (cart : List CartLine) (paymentMethod : String)
    (taxRate : ℚ) (cashier : Nat) : LedgerState :=
  match checkout st cart paymentMethod taxRate cashier with
  | .ok r => r.2
  | .error _ => st

/-- The state after an entry attempt (unchanged on failure). -/
def entryStep (st : LedgerState) (productId : Nat) (batchCode : String)
    (qty : Int) (cost : ℚ) (expiration : Option Nat) (received : Nat)
    (note : String) (user : Nat) : LedgerState :=
  match entry st productId batchCode qty cost expiration received note user with
  | .ok st2 => st2
  | .error _ => st

/-- The state after an adjustment attempt (unchanged on failure). -/
def adjustmentStep (st : LedgerState) (batchId : Nat) (delta : Int)
    (note : String) (user : Nat) : LedgerState :=
  match adjustment st batchId delta note user with
  | .ok st2 => st2
  | .error _ => st

/-- One primary-store operation (spec §4.1-§4.2). -/
inductive LedgerOp where
  | checkout (cart : List CartLine) (paymentMethod : String) (taxRate : ℚ)
      (cashier : Nat)
  | entry (productId : Nat) (batchCode : String) (qty : Int) (cost : ℚ)
      (expiration : Option Nat) (received : Nat) (note : String) (user : Nat)
  | adjustment (batchId : Nat) (delta : Int) (note : String) (user : Nat)

/-- Apply one operation; a failed operation leaves the state unchanged
(the transaction aborts). -/
def applyOp (st : LedgerState) : LedgerOp → LedgerState
  | .checkout cart pm rate cashier => checkoutStep st cart pm rate cashier
  | .entry productId code qty cost expiration received note user =>
      entryStep st productId code qty cost expiration received note user
  | .adjustment batchId delta note user => adjustmentStep st batchId delta note user

/-- Run a sequence of operations from a state. -/
def runOps (st : LedgerState) (ops : List LedgerOp) : LedgerState :=
  ops.foldl applyOp st

/-- The outbox/ledger correspondence the spec promises: exactly one outbox
event per committed sale, and a SALE movement for a sale id exists iff the
outbox event for that sale id exists. -/
def outboxInv (st : LedgerState) : Prop :=
  (∀ s ∈ st.sales,
    (st.outbox.filter (fun e => e.aggregate_id == s.id)).length = 1) ∧
  (∀ n : Nat,
    (∃ m ∈ st.movements, m.movement_type = .SALE ∧ m.reference_id = some n) ↔
      (∃ e ∈ st.outbox, e.aggregate_id = n))

/-- Freshness of the sale-id sequence: every stored aggregate id, sale id and
SALE-movement reference is below `nextSaleId`. -/
def freshInv (st : LedgerState) : Prop :=
  (∀ e ∈ st.outbox, e.aggregate_id < st.nextSaleId) ∧
  (∀ s ∈ st.sales, s.id < st.nextSaleId) ∧
  (∀ m ∈ st.movements, ∀ n : Nat, m.reference_id = some n → n < st.nextSaleId)

/-- The batch invariants of spec §3 plus the schema's primary-key and
id-sequence facts: nonnegative quantities, unique batch ids below
`nextBatchId`, and unique `(product_id, batch_code)` pairs. -/
def batchesWF (st : LedgerState) : Prop :=
  (∀ b ∈ st.batches, 0 ≤ b.quantity) ∧
  (st.batches.map (fun b => b.id)).Nodup ∧
  (∀ b ∈ st.batches, b.id < st.nextBatchId) ∧
  st.batches.Pairwise
    (fun a b => ¬(a.product_id = b.product_id ∧ a.batch_code = b.batch_code))

/-! ## Outbox relay worker (modelled from the spec §4.3) -/

/-- Modelled from the spec: the claim step — the conditional update
`status = PENDING → PROCESSING`; any other status is left untouched. -/
def claimEvent (e : OutboxEvent) : OutboxEvent :=
  if e.status = .PENDING then { e with status := .PROCESSING } else e

/-- Modelled from the spec: successful delivery — `status → COMPLETED`,
`processed_at = now`; only a PROCESSING event can complete. -/
def markDelivered (now : Nat) (e : OutboxEvent) : OutboxEvent :=
  if e.status = .PROCESSING then
    { e with status := .COMPLETED, processed_at := some now }
  else e

/-- Modelled from the spec: failed delivery — increment `retry_count`, store
the error message; back to PENDING while the new count is below
`max_retries`, to FAILED once retries are exhausted; only a PROCESSING event
is affected. -/
def markFailed (maxRetries : Nat) (err : String) (e : OutboxEvent) : OutboxEvent :=
  if e.status = .PROCESSING then
    if e.retry_count + 1 < maxRetries then
      { e with status := .PENDING, retry_count := e.retry_count + 1,
               error_message := some err }
    else
      { e with status := .FAILED, retry_count := e.retry_count + 1,
               error_message := some err }
  else e

/-- One automatic worker action on an event. -/
inductive WorkerOp where
  | claim
  | deliver (now : Nat)
  | fail (maxRetries : Nat) (err : String)

/-- Apply one worker action. -/
def applyWorkerOp (op : WorkerOp) (e : OutboxEvent) : OutboxEvent :=
  match op with
  | .claim => claimEvent e
  | .deliver now => markDelivered now e
  | .fail maxRetries err => markFailed maxRetries err e

/-- Run a sequence of worker actions on an event. -/
def runWorkerOps (e : OutboxEvent) (ops : List WorkerOp) : OutboxEvent :=
  ops.foldl (fun acc op => applyWorkerOp op acc) e

/-- The maximum-retries parameter relevant to a worker action. -/
def opMaxRetries : WorkerOp → Nat
  | .fail m _ => m
  | _ => 0

/-- The automatic transitions the spec allows: PENDING→PROCESSING (claim),
PROCESSING→COMPLETED (success), PROCESSING→PENDING (failure with retries
remaining), PROCESSING→FAILED (failure with retries exhausted). -/
def allowedAuto (maxRetries : Nat) : OutboxStatus → OutboxStatus → Nat → Prop
  | .PENDING, .PROCESSING, _ => True
  | .PROCESSING, .COMPLETED, _ => True
  | .PROCESSING, .PENDING, newCount => newCount < maxRetries
  | .PROCESSING, .FAILED, newCount => maxRetries ≤ newCount
  | _, _, _ => False

/-! ## Secondary ticket store (MongoDB `sales_tickets`) -/

/-- A document of the `sales_tickets` collection, keyed by `sale_id`
(the Mongo initialisation script creates `idx_sale_id_unique`, a unique index
on `sale_id`). -/
structure TicketDoc where
  sale_id : Nat
  payload : Sale
deriving DecidableEq

/-- Modelled from the spec: delivery to the secondary store is an upsert
keyed by `aggregate_id` (the sale id): replace the existing document with that
key, or insert a new one. -/
def upsertTicket (coll : List TicketDoc) (t : TicketDoc) : List TicketDoc :=
  if coll.any (fun d => d.sale_id == t.sale_id) then
    coll.map (fun d => if d.sale_id == t.sale_id then t else d)
  else
    coll ++ [t]

/-- The unique-index invariant of `sales_tickets`: at most one document per
`sale_id` (`idx_sale_id_unique` in the Mongo initialisation script). -/
def ticketKeysNodup (coll : List TicketDoc) : Prop :=
  (coll.map (fun d => d.sale_id)).Nodup

/-! ## Helper lemmas for the claims -/

theorem foldl_price_sum (cart : List CartItem) (a : ℚ) :
    cart.foldl (fun sum item => sum + item.unit_price * (item.quantity : ℚ)) a =
      a + (cart.map (fun i => i.unit_price * (i.quantity : ℚ))).sum := by
  induction cart generalizing a with
  | nil => simp
  | cons i rest ih => simp [ih]; ring

theorem upsertTicket_pos (coll : List TicketDoc) (t : TicketDoc)
    (h : coll.any (fun d => d.sale_id == t.sale_id) = true) :
    upsertTicket coll t = coll.map (fun d => if d.sale_id == t.sale_id then t else d) := by
  simp [upsertTicket, h]

theorem upsertTicket_neg (coll : List TicketDoc) (t : TicketDoc)
    (h : coll.any (fun d => d.sale_id == t.sale_id) = false) :
    upsertTicket coll t = coll ++ [t] := by
  simp [upsertTicket, h]

theorem upsert_has_key (coll : List TicketDoc) (t : TicketDoc) :
    (upsertTicket coll t).any (fun d => d.sale_id == t.sale_id) = true := by
  cases hany : coll.any (fun d => d.sale_id == t.sale_id) with
  | false =>
    rw [upsertTicket_neg coll t hany]
    simp
  | true =>
    rw [upsertTicket_pos coll t hany]
    rcases List.any_eq_true.mp hany with ⟨d, hd, hdk⟩
    refine List.any_eq_true.mpr ⟨t, List.mem_map.mpr ⟨d, hd, ?_⟩, by simp⟩
    rw [if_pos hdk]

theorem upsert_key_eq (coll : List TicketDoc) (t : TicketDoc) :
    ∀ d ∈ upsertTicket coll t, d.sale_id = t.sale_id → d = t := by
  cases hany : coll.any (fun d => d.sale_id == t.sale_id) with
  | false =>
    rw [upsertTicket_neg coll t hany]
    intro d hd hk
    rcases List.mem_append.mp hd with hd2 | hd2
    · exfalso
      have := List.any_eq_false.mp hany d hd2
      simp [hk] at this
    · simpa using hd2
  | true =>
    rw [upsertTicket_pos coll t hany]
    intro d hd hk
    rcases List.mem_map.mp hd with ⟨d0, hd0, rfl⟩
    by_cases h0 : d0.sale_id = t.sale_id
    · rw [if_pos (by simpa using h0)]
    · rw [if_neg (by simpa using h0)] at hk ⊢
      exact absurd hk h0

theorem upsert_idem (coll : List TicketDoc) (t : TicketDoc) :
    upsertTicket (upsertTicket coll t) t = upsertTicket coll t := by
  rw [upsertTicket_pos (upsertTicket coll t) t (upsert_has_key coll t)]
  have hpt : ∀ d ∈ upsertTicket coll t,
      (if d.sale_id == t.sale_id then t else d) = id d := by
    intro d hd
    by_cases hk : d.sale_id = t.sale_id
    · rw [if_pos (by simpa using hk)]
      exact (upsert_key_eq coll t d hd hk).symm
    · rw [if_neg (by simpa using hk)]
      rfl
  rw [List.map_congr_left hpt, List.map_id]

theorem upsert_keys_nodup (coll : List TicketDoc) (t : TicketDoc)
    (h : ticketKeysNodup coll) : ticketKeysNodup (upsertTicket coll t) := by
  unfold ticketKeysNodup at h ⊢
  cases hany : coll.any (fun d => d.sale_id == t.sale_id) with
  | true =>
    rw [upsertTicket_pos coll t hany, List.map_map]
    have hcomp : ((fun d : TicketDoc => d.sale_id) ∘
        (fun d : TicketDoc => if d.sale_id == t.sale_id then t else d)) =
        fun d : TicketDoc => d.sale_id := by
      funext d
      by_cases hd : d.sale_id = t.sale_id
      · simp [hd]
      · simp [hd]
    rw [hcomp]
    exact h
  | false =>
    rw [upsertTicket_neg coll t hany, List.map_append, List.nodup_append]
    refine ⟨h, by simp, ?_⟩
    intro k hk
    rcases List.mem_map.mp hk with ⟨d, hd, rfl⟩
    have hne := List.any_eq_false.mp hany d hd
    simp only [beq_iff_eq] at hne
    simpa using hne

theorem terminal_fixed (e : OutboxEvent)
    (h : e.status = .COMPLETED ∨ e.status = .FAILED) (op : WorkerOp) :
    applyWorkerOp op e = e := by
  rcases h with h | h
  · cases op
    · simp [applyWorkerOp, claimEvent, h]
    · simp [applyWorkerOp, markDelivered, h]
    · simp [applyWorkerOp, markFailed, h]
  · cases op
    · simp [applyWorkerOp, claimEvent, h]
    · simp [applyWorkerOp, markDelivered, h]
    · simp [applyWorkerOp, markFailed, h]

theorem terminal_fixed_run (e : OutboxEvent)
    (h : e.status = .COMPLETED ∨ e.status = .FAILED) (ops : List WorkerOp) :
    runWorkerOps e ops = e := by
  induction ops with
  | nil => rfl
  | cons op rest ih =>
    show runWorkerOps (applyWorkerOp op e) rest = e
    rw [terminal_fixed e h op]
    exact ih

theorem workerOp_transition (e : OutboxEvent) (op : WorkerOp) :
    (applyWorkerOp op e).status = e.status ∨
      allowedAuto (opMaxRetries op) e.status (applyWorkerOp op e).status
        (applyWorkerOp op e).retry_count := by
  cases op with
  | claim =>
    by_cases h : e.status = .PENDING
    · right; simp [applyWorkerOp, claimEvent, h, allowedAuto]
    · left; simp [applyWorkerOp, claimEvent, h]
  | deliver now =>
    by_cases h : e.status = .PROCESSING
    · right; simp [applyWorkerOp, markDelivered, h, allowedAuto]
    · left; simp [applyWorkerOp, markDelivered, h]
  | fail m err =>
    by_cases h : e.status = .PROCESSING
    · by_cases hr : e.retry_count + 1 < m
      · right
        simp [applyWorkerOp, markFailed, h, hr, allowedAuto, opMaxRetries]
      · right
        simp [applyWorkerOp, markFailed, h, hr, allowedAuto, opMaxRetries]
        omega
    · left; simp [applyWorkerOp, markFailed, h]

/-! ## Claim theorems -/

/-- C7: for every cart and tax rate, checkout's totals are
`subtotal = Σ(unit_price × quantity)`, `tax = subtotal × tax_rate`,
`grand_total = subtotal + tax`; the point-of-sale page computes exactly these
three values with the tax rate fixed at `0.16` and sends that `tax_rate` with
the sale. -/
theorem c7_checkout_totals (cart : List CartLine) (fcart : List CartItem)
    (rate : ℚ) (paymentMethod : String) :
    (saleTotals cart rate).1 = (cart.map (fun l => l.unit_price * (l.quantity : ℚ))).sum ∧
    (saleTotals cart rate).2.1 = (saleTotals cart rate).1 * rate ∧
    (saleTotals cart rate).2.2 = (saleTotals cart rate).1 + (saleTotals cart rate).2.1 ∧
    (calculateTotal fcart).1 =
      (fcart.map (fun i => i.unit_price * (i.quantity : ℚ))).sum ∧
    (calculateTotal fcart).2.1 = (calculateTotal fcart).1 * (16 / 100) ∧
    (calculateTotal fcart).2.2 = (calculateTotal fcart).1 + (calculateTotal fcart).2.1 ∧
    (mkSaleData fcart paymentMethod).tax_rate = 16 / 100 := by
  refine ⟨rfl, rfl, rfl, ?_, rfl, rfl, rfl⟩
  unfold calculateTotal
  rw [foldl_price_sum fcart 0]
  simp

/-- C5: delivery to the secondary ticket store is an upsert keyed by the sale
id — delivering the same event twice yields the same stored collection as
delivering it once, and the unique index's at-most-one-document-per-`sale_id`
invariant is preserved by every upsert. -/
theorem c5_upsert_idempotent (coll : List TicketDoc) (t : TicketDoc) :
    upsertTicket (upsertTicket coll t) t = upsertTicket coll t ∧
      (ticketKeysNodup coll → ticketKeysNodup (upsertTicket coll t)) :=
  ⟨upsert_idem coll t, upsert_keys_nodup coll t⟩

/-- C5 witness: the idempotence and key-uniqueness conclusions at a concrete
collection and ticket. -/
theorem c5_witness :
    (upsertTicket (upsertTicket [] ⟨3, ⟨3, 1, [], 0, 0, 0, "cash"⟩⟩)
        ⟨3, ⟨3, 1, [], 0, 0, 0, "cash"⟩⟩ =
      upsertTicket [] ⟨3, ⟨3, 1, [], 0, 0, 0, "cash"⟩⟩) ∧
    ticketKeysNodup (upsertTicket [] ⟨3, ⟨3, 1, [], 0, 0, 0, "cash"⟩⟩) := by
  refine ⟨(c5_upsert_idempotent [] ⟨3, ⟨3, 1, [], 0, 0, 0, "cash"⟩⟩).1, ?_⟩
  exact (c5_upsert_idempotent [] ⟨3, ⟨3, 1, [], 0, 0, 0, "cash"⟩⟩).2
    (by simp [ticketKeysNodup])

/-- C4: an event's status is always one of the four schema statuses; every
automatic worker action either leaves the status unchanged or performs one of
the allowed transitions (PENDING→PROCESSING on claim, PROCESSING→COMPLETED on
success, PROCESSING→PENDING on failure with the new retry count below
`max_retries`, PROCESSING→FAILED once retries are exhausted); and a COMPLETED
or FAILED event is never changed by any further sequence of automatic
actions. -/
theorem c4_outbox_transitions (e : OutboxEvent) (op : WorkerOp)
    (ops : List WorkerOp) :
    sqlStatusCheck (statusString (applyWorkerOp op e).status) = true ∧
    ((applyWorkerOp op e).status = e.status ∨
      allowedAuto (opMaxRetries op) e.status (applyWorkerOp op e).status
        (applyWorkerOp op e).retry_count) ∧
    (e.status = .COMPLETED ∨ e.status = .FAILED → runWorkerOps e ops = e) := by
  refine ⟨?_, workerOp_transition e op, fun h => terminal_fixed_run e h ops⟩
  cases (applyWorkerOp op e).status <;> rfl

/-- C4 witness: the conclusions at a concrete COMPLETED event and a claim
action, with the terminal hypothesis discharged. -/
theorem c4_witness :
    runWorkerOps ⟨1, "sale_created", 5, ⟨5, 1, [], 0, 0, 0, "cash"⟩,
        .COMPLETED, 0, none, some 9⟩ [.claim, .deliver 3, .fail 3 "boom"] =
      ⟨1, "sale_created", 5, ⟨5, 1, [], 0, 0, 0, "cash"⟩,
        .COMPLETED, 0, none, some 9⟩ :=
  (c4_outbox_transitions
    ⟨1, "sale_created", 5, ⟨5, 1, [], 0, 0, 0, "cash"⟩, .COMPLETED, 0, none, some 9⟩
    .claim [.claim, .deliver 3, .fail 3 "boom"]).2.2 (Or.inl rfl)

/-- C2: when checkout fails, the whole transaction aborts with no side
effects — the batch list, movement log and outbox are exactly as before — and
the point-of-sale page leaves the cart unchanged on a failed checkout,
clearing it only on success. -/
theorem c2_checkout_no_side_effects (st : LedgerState) (cart : List CartLine)
    (paymentMethod : String) (rate : ℚ) (cashier : Nat) (err : LedgerError)
    (fcart : List CartItem) (msg : String) (saleId : Nat) :
    (checkout st cart paymentMethod rate cashier = .error err →
      checkoutStep st cart paymentMethod rate cashier = st ∧
      (checkoutStep st cart paymentMethod rate cashier).batches = st.batches ∧
      (checkoutStep st cart paymentMethod rate cashier).movements = st.movements ∧
      (checkoutStep st cart paymentMethod rate cashier).outbox = st.outbox) ∧
    handleCheckoutCart fcart (.error msg) = fcart ∧
    (fcart ≠ [] → handleCheckoutCart fcart (.ok saleId) = []) := by
  refine ⟨?_, ?_, ?_⟩
  · intro h
    have hstep : checkoutStep st cart paymentMethod rate cashier = st := by
      unfold checkoutStep
      rw [h]
    exact ⟨hstep, by rw [hstep], by rw [hstep], by rw [hstep]⟩
  · unfold handleCheckoutCart
    by_cases hemp : fcart.isEmpty
    · simp [hemp]
    · simp [hemp]
  · intro hne
    unfold handleCheckoutCart
    rw [if_neg (by simpa using hne)]

/-- C2 witness: a concrete aborted checkout (empty state, insufficient stock)
and a concrete failed / successful frontend checkout. -/
theorem c2_witness :
    (checkoutStep initState [⟨1, 2, 5⟩] "cash" (16 / 100) 1 = initState) ∧
    handleCheckoutCart [⟨1, "A", "S1", 1, 5, 3⟩] (.error "InsufficientStock") =
      [⟨1, "A", "S1", 1, 5, 3⟩] ∧
    handleCheckoutCart [⟨1, "A", "S1", 1, 5, 3⟩] (.ok 7) = [] := by
  have h := c2_checkout_no_side_effects initState [⟨1, 2, 5⟩] "cash" (16 / 100) 1
    .InsufficientStock [⟨1, "A", "S1", 1, 5, 3⟩] "InsufficientStock" 7
  refine ⟨(h.1 (by rfl)).1, h.2.1, h.2.2 (by decide)⟩

theorem find_dropSku (cart : List CartItem) (pid : Nat) :
    (cart.map dropSku).find? (fun item => item.product_id == pid) =
      (cart.find? (fun item => item.product_id == pid)).map dropSku := by
  induction cart with
  | nil => rfl
  | cons i rest ih =>
    by_cases h : i.product_id = pid
    · rw [List.map_cons,
        List.find?_cons_of_pos _ (by simpa [dropSku] using h),
        List.find?_cons_of_pos _ (by simpa using h)]
      rfl
    · rw [List.map_cons,
        List.find?_cons_of_neg _ (by simpa [dropSku] using h),
        List.find?_cons_of_neg _ (by simpa using h)]
      exact ih

/-- C9 counterexample: with product 1 at `total_stock = 1` already in the cart
at quantity 1, `SalesPage.jsx`'s `addToCart` refuses the increment while the
inline `App.jsx` `addToCart` increments to quantity 2 — the two functions do
not compute the same cart. -/
theorem c9_counterexample :
    (addToCart [⟨1, "A", "S1", 1, 2, 1⟩] ⟨1, "A", "S1", 2, 1⟩).map dropSku ≠
      appAddToCart ([⟨1, "A", "S1", 1, 2, 1⟩].map dropSku) ⟨1, "A", "S1", 2, 1⟩ := by
  decide

/-- C9 (amended): the two `addToCart` implementations compute the same cart
(up to the `sku` field, which only `SalesPage.jsx` records) whenever every
existing cart line for the product has quantity strictly below the product's
`total_stock` — in particular whenever the product is not yet in the cart;
they differ exactly when an existing line has reached `total_stock`, where
`SalesPage.jsx` refuses the increment and the inline `App.jsx` version
increments past the stock. -/
theorem c9_addToCart_agree (cart : List CartItem) (product : Product)
    (h : ∀ item ∈ cart, item.product_id = product.id →
      item.quantity < product.total_stock) :
    (addToCart cart product).map dropSku =
      appAddToCart (cart.map dropSku) product := by
  unfold addToCart appAddToCart
  rw [find_dropSku cart product.id]
  rcases hf : cart.find? (fun item => item.product_id == product.id) with _ | existing
  · simp only [hf]
    rw [List.map_append]
    rfl
  · simp only [hf]
    have hmem := List.mem_of_find?_eq_some hf
    have hpid : existing.product_id = product.id := by
      simpa using List.find?_some hf
    have hlt : existing.quantity < product.total_stock := h existing hmem hpid
    rw [if_neg (by omega)]
    rw [List.map_map, List.map_map]
    refine List.map_congr_left ?_
    intro item _
    simp only [Function.comp]
    by_cases hi : item.product_id = product.id
    · simp [dropSku, hi]
    · simp [dropSku, hi]

/-- C9 witness: the amended agreement at a concrete cart and product, with the
below-stock hypothesis discharged. -/
theorem c9_witness :
    (addToCart [⟨1, "A", "S1", 1, 2, 3⟩] ⟨1, "A", "S1", 2, 3⟩).map dropSku =
      appAddToCart ([⟨1, "A", "S1", 1, 2, 3⟩].map dropSku) ⟨1, "A", "S1", 2, 3⟩ :=
  c9_addToCart_agree [⟨1, "A", "S1", 1, 2, 3⟩] ⟨1, "A", "S1", 2, 3⟩ (by decide)

/-- C1: `allocate` draws on the product's positive-quantity batches in
expiration/received/id order and greedily covers the request: it fails with
`InsufficientStock` exactly when the eligible batches sum below the request
(and then decrements nothing), a successful plan takes exactly the requested
quantity, and on Scenario A (X expires 2025-12-01 qty 5, Y expires 2025-12-10
qty 10) a request of 8 takes 5 from X and 3 from Y, leaving X=0 and Y=7. -/
theorem c1_allocate_fifo (batches : List Batch) (productId : Nat) (q : Int) :
    (allocate batches productId q = .error .InsufficientStock ↔
      eligibleTotal batches productId < q) ∧
    (∀ plan, 0 ≤ q → allocate batches productId q = .ok plan →
      planTotal plan = q) ∧
    (∀ err, allocate batches productId q = .error err →
      allocateStep batches productId q = batches) ∧
    allocate [scenarioY, scenarioX] 7 8 = .ok [(1, 5), (2, 3)] ∧
    allocateStep [scenarioY, scenarioX] 7 8 =
      [{ scenarioY with quantity := 7 }, { scenarioX with quantity := 0 }] := by
  refine ⟨allocate_error_iff batches productId q, ?_, ?_, by rfl, by rfl⟩
  · intro plan hq h
    exact allocate_ok_planTotal batches productId q plan hq h
  · intro err h
    unfold allocateStep
    rw [h]

/-- C1 witness: the success-case conclusion at Scenario A's concrete input,
with the nonnegativity hypothesis discharged. -/
theorem c1_witness : planTotal [(1, 5), (2, 3)] = 8 :=
  (c1_allocate_fifo [scenarioY, scenarioX] 7 8).2.1 [(1, 5), (2, 3)] (by decide)
    (c1_allocate_fifo [scenarioY, scenarioX] 7 8).2.2.2.1

theorem map_pid_eq (cart : List CartItem) (f : CartItem → CartItem)
    (hf : ∀ i, (f i).product_id = i.product_id) :
    (cart.map f).map (fun i => i.product_id) = cart.map (fun i => i.product_id) := by
  rw [List.map_map]
  exact List.map_congr_left (fun i _ => hf i)

theorem addToCart_wf (S : Nat → Nat) (cart : List CartItem) (p : Product)
    (h : cartWF S cart) (hs : p.total_stock = S p.id) (h1 : 1 ≤ p.total_stock) :
    cartWF S (addToCart cart p) := by
  obtain ⟨hnodup, hitems⟩ := h
  unfold addToCart
  rcases hf : cart.find? (fun item => item.product_id == p.id) with _ | existing
  · simp only [hf]
    have hnot : ∀ item ∈ cart, ¬(item.product_id = p.id) := by
      intro item hitem hc
      have := List.find?_eq_none.mp hf item hitem
      simp [hc] at this
    constructor
    · rw [List.map_append, List.nodup_append]
      refine ⟨hnodup, by simp, ?_⟩
      intro x hx
      rcases List.mem_map.mp hx with ⟨item, hitem, rfl⟩
      simpa using fun hc => hnot item hitem hc
    · intro item hitem
      rcases List.mem_append.mp hitem with hi | hi
      · exact hitems item hi
      · simp only [List.mem_singleton] at hi
        subst hi
        exact ⟨by simpa using hs, le_refl 1, by simpa using h1⟩
  · simp only [hf]
    have hmem := List.mem_of_find?_eq_some hf
    have hpid : existing.product_id = p.id := by simpa using List.find?_some hf
    by_cases hge : existing.quantity ≥ p.total_stock
    · rw [if_pos hge]
      exact ⟨hnodup, hitems⟩
    · rw [if_neg hge]
      have hpres : ∀ i : CartItem,
          ((if i.product_id == p.id then
              { i with quantity := i.quantity + 1 } else i) : CartItem).product_id =
            i.product_id := by
        intro i
        by_cases hi : i.product_id = p.id
        · simp [hi]
        · simp [hi]
      constructor
      · rw [map_pid_eq cart _ hpres]
        exact hnodup
      · intro item' hmem'
        rcases List.mem_map.mp hmem' with ⟨item, hitem, rfl⟩
        by_cases hi : item.product_id = p.id
        · have hieq : item = existing :=
            List.inj_on_of_nodup_map hnodup hitem hmem (hi.trans hpid.symm)
          rcases hitems item hitem with ⟨hst, hq1, hqs⟩
          rw [if_pos (by simpa using hi)]
          refine ⟨by simpa using hst, by simp, ?_⟩
          simp only
          have hstp : item.total_stock = p.total_stock := by
            rw [hst, hi, ← hs]
          have hqe : item.quantity = existing.quantity := by rw [hieq]
          omega
        · rw [if_neg (by simpa using hi)]
          exact hitems item hitem

theorem updateQuantity_wf (S : Nat → Nat) (cart : List CartItem) (pid : Nat)
    (q : Int) (h : cartWF S cart) : cartWF S (updateQuantity cart pid q) := by
  obtain ⟨hnodup, hitems⟩ := h
  unfold updateQuantity
  by_cases hq : q ≤ 0
  · rw [if_pos hq]
    constructor
    · exact hnodup.sublist ((List.filter_sublist cart).map (fun i => i.product_id))
    · intro item hitem
      exact hitems item (List.mem_of_mem_filter hitem)
  · rw [if_neg hq]
    rcases hf : cart.find? (fun i => i.product_id == pid) with _ | item
    · simp only [hf]
      exact ⟨hnodup, hitems⟩
    · simp only [hf]
      have hmem := List.mem_of_find?_eq_some hf
      have hpid : item.product_id = pid := by simpa using List.find?_some hf
      by_cases hstock : q > (item.total_stock : Int)
      · rw [if_pos hstock]
        exact ⟨hnodup, hitems⟩
      · rw [if_neg hstock]
        have hpres : ∀ i : CartItem,
            ((if i.product_id == pid then
                { i with quantity := q.toNat } else i) : CartItem).product_id =
              i.product_id := by
          intro i
          by_cases hi : i.product_id = pid
          · simp [hi]
          · simp [hi]
        constructor
        · rw [map_pid_eq cart _ hpres]
          exact hnodup
        · intro item' hmem'
          rcases List.mem_map.mp hmem' with ⟨it, hit, rfl⟩
          by_cases hi : it.product_id = pid
          · have hieq : it = item :=
              List.inj_on_of_nodup_map hnodup hit hmem (hi.trans hpid.symm)
            rcases hitems it hit with ⟨hst, _, _⟩
            rw [if_pos (by simpa using hi)]
            refine ⟨by simpa using hst, ?_, ?_⟩
            · simp only
              omega
            · simp only
              have : it.total_stock = item.total_stock := by rw [hieq]
              omega
          · rw [if_neg (by simpa using hi)]
            exact hitems it hit

theorem runCartOps_wf (S : Nat → Nat) (ops : List CartOp) (cart : List CartItem)
    (h : cartWF S cart) (hops : opsStockOK S ops = true) :
    cartWF S (runCartOps cart ops) := by
  induction ops generalizing cart with
  | nil => exact h
  | cons op rest ih =>
    have hall := List.all_eq_true.mp hops
    have hrest : opsStockOK S rest = true := by
      refine List.all_eq_true.mpr ?_
      intro x hx
      exact hall x (List.mem_cons_of_mem op hx)
    have hop := hall op (List.mem_cons_self op rest)
    show cartWF S (runCartOps (applyCartOp cart op) rest)
    refine ih (applyCartOp cart op) ?_ hrest
    cases op with
    | add p =>
      simp only [Bool.and_eq_true, beq_iff_eq] at hop
      exact addToCart_wf S cart p h hop.1 (Nat.le_of_ble_eq_true hop.2)
    | update pid q =>
      exact updateQuantity_wf S cart pid q h

/-- C10 counterexample: `addToCart` on a product with `total_stock = 0`
creates a cart line with quantity 1 above its recorded stock, so the claimed
invariant fails for that call sequence. -/
theorem c10_counterexample :
    ∃ item ∈ runCartOps [] [CartOp.add ⟨1, "Z", "Z1", 1, 0⟩],
      item.total_stock < item.quantity := by
  decide

/-- C10 (amended): provided every product passed to `addToCart` has
`total_stock ≥ 1` and a stock consistent with one assignment per product id
(as holds in the page, which loads products once and only offers `addToCart`
when `total_stock > 0`), every sequence of `addToCart`/`updateQuantity` calls
keeps at most one line per product with 1 ≤ quantity ≤ recorded stock;
`updateQuantity` with a quantity ≤ 0 removes the product's line, and with a
quantity above the line's recorded stock leaves the cart unchanged. -/
theorem c10_cart_invariant (S : Nat → Nat) (ops : List CartOp)
    (cart : List CartItem) (pid : Nat) (q : Int) (item : CartItem)
    (hops : opsStockOK S ops = true) :
    cartWF S (runCartOps [] ops) ∧
    (q ≤ 0 → ∀ it ∈ updateQuantity cart pid q, it.product_id ≠ pid) ∧
    (cart.find? (fun i => i.product_id == pid) = some item →
      (item.total_stock : Int) < q → updateQuantity cart pid q = cart) := by
  refine ⟨runCartOps_wf S ops [] ⟨by simp, by simp⟩ hops, ?_, ?_⟩
  · intro hq it hit
    unfold updateQuantity at hit
    rw [if_pos hq] at hit
    have := List.of_mem_filter hit
    simpa using this
  · intro hfind hstock
    unfold updateQuantity
    have hq : ¬ q ≤ 0 := by
      have : (0 : Int) ≤ (item.total_stock : Int) := Int.ofNat_nonneg _
      omega
    rw [if_neg hq]
    simp only [hfind]
    rw [if_pos hstock]

/-- C10 witness: the invariant after a concrete call sequence, and the two
`updateQuantity` conclusions at concrete inputs, hypotheses discharged. -/
theorem c10_witness :
    cartWF (fun _ => 3)
      (runCartOps [] [CartOp.add ⟨1, "A", "S1", 2, 3⟩,
        CartOp.update 1 2, CartOp.add ⟨1, "A", "S1", 2, 3⟩]) ∧
    updateQuantity [⟨1, "A", "S1", 2, 2, 3⟩] 1 9 = [⟨1, "A", "S1", 2, 2, 3⟩] := by
  have h := c10_cart_invariant (fun _ => 3)
    [CartOp.add ⟨1, "A", "S1", 2, 3⟩, CartOp.update 1 2,
      CartOp.add ⟨1, "A", "S1", 2, 3⟩]
    [⟨1, "A", "S1", 2, 2, 3⟩] 1 9 ⟨1, "A", "S1", 2, 2, 3⟩ (by rfl)
  exact ⟨h.1, h.2.2 (by rfl) (by decide)⟩

theorem allocateStep_preserves (batches : List Batch) (productId : Nat) (q : Int)
    (hB : (batches.map (fun b => b.id)).Nodup)
    (hnn : ∀ b ∈ batches, 0 ≤ b.quantity) (hq : 0 ≤ q) :
    ((allocateStep batches productId q).map (fun b => b.id)).Nodup ∧
      (∀ b ∈ allocateStep batches productId q, 0 ≤ b.quantity) := by
  unfold allocateStep
  rcases h : allocate batches productId q with plan | err
  · exact ⟨hB, hnn⟩
  · constructor
    · rw [applyPlan_ids]
      exact hB
    · exact allocate_ok_nonneg batches productId q err hB hnn hq h

theorem allocRun_total (batches : List Batch) (requests : List (Nat × Int))
    (hB : (batches.map (fun b => b.id)).Nodup)
    (hnn : ∀ b ∈ batches, 0 ≤ b.quantity)
    (hq : ∀ r ∈ requests, 0 ≤ r.2) :
    totalQty (allocRun batches requests) =
      totalQty batches - allocatedSum batches requests := by
  induction requests generalizing batches with
  | nil => simp [allocRun, allocatedSum]
  | cons r rest ih =>
    have hq0 : 0 ≤ r.2 := hq r (List.mem_cons_self r rest)
    have hqr : ∀ x ∈ rest, 0 ≤ x.2 := fun x hx => hq x (List.mem_cons_of_mem r hx)
    have hrun : allocRun batches (r :: rest) =
        allocRun (allocateStep batches r.1 r.2) rest := rfl
    rcases h : allocate batches r.1 r.2 with plan | plan
    · have hsucc : allocSuccess batches r = false := by
        unfold allocSuccess
        rw [h]
      have hstep : allocateStep batches r.1 r.2 = batches := by
        unfold allocateStep
        rw [h]
      rw [hrun, hstep, ih batches hB hnn hqr]
      have : allocatedSum batches (r :: rest) = allocatedSum batches rest := by
        show (if allocSuccess batches r then r.2 else 0) +
          allocatedSum (allocateStep batches r.1 r.2) rest = _
        rw [hsucc, hstep]
        simp
      rw [this]
    · have hsucc : allocSuccess batches r = true := by
        unfold allocSuccess
        rw [h]
      have hstep : allocateStep batches r.1 r.2 = applyPlan batches plan := by
        unfold allocateStep
        rw [h]
      have hB2 : ((applyPlan batches plan).map (fun b => b.id)).Nodup := by
        rw [applyPlan_ids]; exact hB
      have hnn2 := allocate_ok_nonneg batches r.1 r.2 plan hB hnn hq0 h
      have htot := allocate_ok_totalQty batches r.1 r.2 plan hB hq0 h
      have hsum : allocatedSum batches (r :: rest) =
          r.2 + allocatedSum (applyPlan batches plan) rest := by
        show (if allocSuccess batches r then r.2 else 0) +
          allocatedSum (allocateStep batches r.1 r.2) rest = _
        rw [hsucc, hstep]
        simp
      rw [hrun, hstep, ih (applyPlan batches plan) hB2 hnn2 hqr, htot, hsum]
      ring

theorem allocRun_preserves (batches : List Batch) (requests : List (Nat × Int))
    (hB : (batches.map (fun b => b.id)).Nodup)
    (hnn : ∀ b ∈ batches, 0 ≤ b.quantity)
    (hq : ∀ r ∈ requests, 0 ≤ r.2) :
    ((allocRun batches requests).map (fun b => b.id)).Nodup ∧
      (∀ b ∈ allocRun batches requests, 0 ≤ b.quantity) := by
  induction requests generalizing batches with
  | nil => exact ⟨hB, hnn⟩
  | cons r rest ih =>
    have hq0 : 0 ≤ r.2 := hq r (List.mem_cons_self r rest)
    have hqr : ∀ x ∈ rest, 0 ≤ x.2 := fun x hx => hq x (List.mem_cons_of_mem r hx)
    have hstep := allocateStep_preserves batches r.1 r.2 hB hnn hq0
    exact ih (allocateStep batches r.1 r.2) hstep.1 hstep.2 hqr

/-- C6: over any serialised sequence of allocations (the lock discipline of
spec §5 serialises concurrent transactions), the total successfully allocated
never exceeds the initial total stock, no batch quantity is ever negative at
any intermediate point, and in Scenario B (one batch of 10, two requests of 6)
exactly the first succeeds, the second fails with `InsufficientStock`, and the
batch ends at 4. -/
theorem c6_concurrent_allocation (batches : List Batch)
    (requests : List (Nat × Int))
    (hB : (batches.map (fun b => b.id)).Nodup)
    (hnn : ∀ b ∈ batches, 0 ≤ b.quantity)
    (hq : ∀ r ∈ requests, 0 ≤ r.2) :
    allocatedSum batches requests ≤ totalQty batches ∧
    (∀ n, ∀ b ∈ allocRun batches (requests.take n), 0 ≤ b.quantity) ∧
    allocSuccess [scenarioB] (5, 6) = true ∧
    allocate (allocateStep [scenarioB] 5 6) 5 6 = .error .InsufficientStock ∧
    allocRun [scenarioB] [(5, 6), (5, 6)] = [{ scenarioB with quantity := 4 }] ∧
    allocatedSum [scenarioB] [(5, 6), (5, 6)] = 6 := by
  refine ⟨?_, ?_, by rfl, by rfl, by rfl, by rfl⟩
  · have htot := allocRun_total batches requests hB hnn hq
    have hrun := allocRun_preserves batches requests hB hnn hq
    have hnonneg := totalQty_nonneg (allocRun batches requests) hrun.2
    omega
  · intro n
    have hqn : ∀ r ∈ requests.take n, 0 ≤ r.2 :=
      fun r hr => hq r (List.take_subset n requests hr)
    exact (allocRun_preserves batches (requests.take n) hB hnn hqn).2

/-- C6 witness: the bound at Scenario B's concrete input, hypotheses
discharged. -/
theorem c6_witness :
    allocatedSum [scenarioB] [(5, 6), (5, 6)] ≤ totalQty [scenarioB] :=
  (c6_concurrent_allocation [scenarioB] [(5, 6), (5, 6)] (by decide) (by decide)
    (by decide)).1

theorem entry_ok_inversion (st : LedgerState) (productId : Nat) (code : String)
    (qty : Int) (cost : ℚ) (expiration : Option Nat) (received : Nat)
    (note : String) (user : Nat) (st2 : LedgerState)
    (h : entry st productId code qty cost expiration received note user = .ok st2) :
    st.batches.any (fun b => b.product_id == productId && b.batch_code == code)
        = false ∧
    0 ≤ qty ∧
    st2.batches = st.batches ++
      [{ id := st.nextBatchId, product_id := productId, batch_code := code,
         quantity := qty, cost_per_unit := cost, expiration_date := expiration,
         received_date := received }] ∧
    st2.nextBatchId = st.nextBatchId + 1 ∧
    st2.outbox = st.outbox ∧ st2.sales = st.sales ∧
    st2.nextSaleId = st.nextSaleId ∧
    st2.movements = st.movements ++
      [{ product_batch_id := st.nextBatchId, movement_type := .ENTRY,
         quantity := qty, user_id := user, reference_id := none, note := note }] := by
  unfold entry at h
  by_cases h1 : st.batches.any (fun b => b.product_id == productId && b.batch_code == code)
  · rw [if_pos h1] at h
    simp at h
  · rw [if_neg h1] at h
    by_cases h2 : qty < 0
    · rw [if_pos h2] at h
      simp at h
    · rw [if_neg h2] at h
      simp only [Except.ok.injEq] at h
      subst h
      exact ⟨by simpa using h1, by omega, rfl, rfl, rfl, rfl, rfl, rfl⟩

theorem adjustment_ok_inversion (st : LedgerState) (batchId : Nat) (delta : Int)
    (note : String) (user : Nat) (st2 : LedgerState)
    (h : adjustment st batchId delta note user = .ok st2) :
    ∃ b, st.batches.find? (fun x => x.id == batchId) = some b ∧
      0 ≤ b.quantity + delta ∧
      st2.batches = st.batches.map (fun x =>
        if x.id == batchId then { x with quantity := x.quantity + delta } else x) ∧
      st2.nextBatchId = st.nextBatchId ∧
      st2.outbox = st.outbox ∧ st2.sales = st.sales ∧
      st2.nextSaleId = st.nextSaleId ∧
      st2.movements = st.movements ++
        [{ product_batch_id := batchId, movement_type := .ADJUSTMENT,
           quantity := delta, user_id := user, reference_id := none,
           note := note }] := by
  unfold adjustment at h
  rcases hf : st.batches.find? (fun x => x.id == batchId) with _ | b
  · rw [hf] at h
    simp at h
  · rw [hf] at h
    dsimp only at h
    by_cases h2 : b.quantity + delta < 0
    · rw [if_pos h2] at h
      simp at h
    · rw [if_neg h2] at h
      simp only [Except.ok.injEq] at h
      subst h
      exact ⟨b, hf, by omega, rfl, rfl, rfl, rfl, rfl, rfl⟩

theorem checkout_ok_inversion (st : LedgerState) (cart : List CartLine)
    (paymentMethod : String) (rate : ℚ) (cashier : Nat) (sale : Sale)
    (st2 : LedgerState)
    (h : checkout st cart paymentMethod rate cashier = .ok (sale, st2)) :
    cart ≠ [] ∧ (∀ l ∈ cart, 1 ≤ l.quantity) ∧
    ∃ lines nb, allocateLines st.batches cart = .ok (lines, nb) ∧
      sale = { id := st.nextSaleId, cashier_id := cashier, lines := lines,
               subtotal := (saleTotals cart rate).1,
               tax := (saleTotals cart rate).2.1,
               grand_total := (saleTotals cart rate).2.2,
               payment_method := paymentMethod } ∧
      st2 = { st with
        batches := nb,
        movements := st.movements ++ lines.flatMap (fun l =>
          l.batches.map (fun e =>
            { product_batch_id := e.1, movement_type := .SALE,
              quantity := -e.2, user_id := cashier,
              reference_id := some st.nextSaleId, note := "" })),
        outbox := st.outbox ++
          [{ id := st.nextEventId, event_type := "sale_created",
             aggregate_id := st.nextSaleId, payload := sale, status := .PENDING,
             retry_count := 0, error_message := none, processed_at := none }],
        sales := st.sales ++ [sale],
        nextSaleId := st.nextSaleId + 1,
        nextEventId := st.nextEventId + 1 } := by
  unfold checkout at h
  by_cases h1 : cart.isEmpty
  · rw [if_pos h1] at h
    simp at h
  · rw [if_neg h1] at h
    by_cases h2 : cart.any (fun l => decide (l.quantity < 1))
    · rw [if_pos h2] at h
      simp at h
    · rw [if_neg h2] at h
      rcases hal : allocateLines st.batches cart with _ | pair
      · rw [hal] at h
        simp at h
      · rw [hal] at h
        rcases pair with ⟨lines, nb⟩
        simp only [Except.ok.injEq, Prod.mk.injEq] at h
        rcases h with ⟨hsale, hst2⟩
        refine ⟨by simpa using h1, ?_, lines, nb, rfl, hsale.symm, ?_⟩
        · intro l hl
          have h3 : ∀ x ∈ cart, 1 ≤ x.quantity := by simpa using h2
          exact h3 l hl
        · rw [← hst2, ← hsale]

theorem applyPlan_proj (batches : List Batch) (plan : List (Nat × Int)) :
    (applyPlan batches plan).map (fun b => (b.id, b.product_id, b.batch_code)) =
      batches.map (fun b => (b.id, b.product_id, b.batch_code)) := by
  unfold applyPlan
  rw [List.map_map]
  rfl

theorem proj_ids (l1 l2 : List Batch)
    (h : l1.map (fun b => (b.id, b.product_id, b.batch_code)) =
      l2.map (fun b => (b.id, b.product_id, b.batch_code))) :
    l1.map (fun b => b.id) = l2.map (fun b => b.id) := by
  have h2 := congrArg (List.map (fun x : Nat × Nat × String => x.1)) h
  rw [List.map_map, List.map_map] at h2
  exact h2

theorem allocateLines_ok_wf (cart : List CartLine) (batches : List Batch)
    (lines : List SaleLine) (nb : List Batch)
    (hB : (batches.map (fun b => b.id)).Nodup)
    (hnn : ∀ b ∈ batches, 0 ≤ b.quantity)
    (hq : ∀ l ∈ cart, 1 ≤ l.quantity)
    (h : allocateLines batches cart = .ok (lines, nb)) :
    nb.map (fun b => (b.id, b.product_id, b.batch_code)) =
      batches.map (fun b => (b.id, b.product_id, b.batch_code)) ∧
    (∀ b ∈ nb, 0 ≤ b.quantity) := by
  induction cart generalizing batches lines nb with
  | nil =>
    unfold allocateLines at h
    simp only [Except.ok.injEq, Prod.mk.injEq] at h
    rcases h with ⟨_, hnb⟩
    subst hnb
    exact ⟨rfl, hnn⟩
  | cons line rest ih =>
    unfold allocateLines at h
    rcases hal : allocate batches line.product_id line.quantity with plan | plan
    · rw [hal] at h
      simp at h
    · rw [hal] at h
      dsimp only at h
      rcases hrest : allocateLines (applyPlan batches plan) rest with _ | pair
      · rw [hrest] at h
        simp at h
      · rw [hrest] at h
        rcases pair with ⟨lines2, nb2⟩
        simp only [Except.ok.injEq, Prod.mk.injEq] at h
        rcases h with ⟨_, hnb⟩
        subst hnb
        have hq0 : (0 : Int) ≤ line.quantity := by
          have := hq line (List.mem_cons_self line rest)
          omega
        have hB2 : ((applyPlan batches plan).map (fun b => b.id)).Nodup := by
          rw [applyPlan_ids]
          exact hB
        have hnn2 := allocate_ok_nonneg batches line.product_id line.quantity plan
          hB hnn hq0 hal
        have hqr : ∀ l ∈ rest, 1 ≤ l.quantity :=
          fun l hl => hq l (List.mem_cons_of_mem line hl)
        rcases ih (applyPlan batches plan) lines2 nb2 hB2 hnn2 hqr hrest with ⟨hproj, hnn3⟩
        exact ⟨hproj.trans (applyPlan_proj batches plan), hnn3⟩

theorem bound_of_ids_eq (l1 l2 : List Batch) (n : Nat)
    (h : l1.map (fun b => b.id) = l2.map (fun b => b.id))
    (hb : ∀ b ∈ l2, b.id < n) : ∀ b ∈ l1, b.id < n := by
  intro b hbm
  have hmem : b.id ∈ l1.map (fun b => b.id) := List.mem_map.mpr ⟨b, hbm, rfl⟩
  rw [h] at hmem
  rcases List.mem_map.mp hmem with ⟨b0, hb0, hid⟩
  rw [← hid]
  exact hb b0 hb0

theorem pairwise_of_proj_eq (l1 l2 : List Batch)
    (h : l1.map (fun b => (b.id, b.product_id, b.batch_code)) =
      l2.map (fun b => (b.id, b.product_id, b.batch_code)))
    (hp : l2.Pairwise
      (fun a b => ¬(a.product_id = b.product_id ∧ a.batch_code = b.batch_code))) :
    l1.Pairwise
      (fun a b => ¬(a.product_id = b.product_id ∧ a.batch_code = b.batch_code)) := by
  have h2 : (l2.map (fun b => (b.id, b.product_id, b.batch_code))).Pairwise
      (fun x y : Nat × Nat × String => ¬(x.2.1 = y.2.1 ∧ x.2.2 = y.2.2)) :=
    List.pairwise_map.mpr hp
  rw [← h] at h2
  exact List.pairwise_map.mp h2

theorem batchesWF_transfer (st st2 : LedgerState) (h : batchesWF st)
    (hproj : st2.batches.map (fun b => (b.id, b.product_id, b.batch_code)) =
      st.batches.map (fun b => (b.id, b.product_id, b.batch_code)))
    (hnn : ∀ b ∈ st2.batches, 0 ≤ b.quantity)
    (hnext : st2.nextBatchId = st.nextBatchId) : batchesWF st2 := by
  obtain ⟨_, hnodup, hbound, hpair⟩ := h
  have hids := proj_ids _ _ hproj
  refine ⟨hnn, ?_, ?_, pairwise_of_proj_eq _ _ hproj hpair⟩
  · rw [hids]
    exact hnodup
  · rw [hnext]
    exact bound_of_ids_eq _ _ _ hids hbound

theorem entryStep_wf (st : LedgerState) (productId : Nat) (code : String)
    (qty : Int) (cost : ℚ) (expiration : Option Nat) (received : Nat)
    (note : String) (user : Nat) (h : batchesWF st) :
    batchesWF (entryStep st productId code qty cost expiration received note user) := by
  unfold entryStep
  rcases hres : entry st productId code qty cost expiration received note user
    with err | st2
  · simp only [hres]
    exact h
  · simp only [hres]
    obtain ⟨hany, hqty, hbat, hnext, _, _, _, _⟩ :=
      entry_ok_inversion st productId code qty cost expiration received note user
        st2 hres
    obtain ⟨hnn, hnodup, hbound, hpair⟩ := h
    have hanyf := List.any_eq_false.mp hany
    refine ⟨?_, ?_, ?_, ?_⟩
    · intro b hb
      rw [hbat] at hb
      rcases List.mem_append.mp hb with hb2 | hb2
      · exact hnn b hb2
      · simp only [List.mem_singleton] at hb2
        subst hb2
        exact hqty
    · rw [hbat, List.map_append, List.nodup_append]
      refine ⟨hnodup, by simp, ?_⟩
      intro x hx
      rcases List.mem_map.mp hx with ⟨b0, hb0, rfl⟩
      have := hbound b0 hb0
      simp only [List.map_cons, List.map_nil, List.mem_singleton]
      omega
    · intro b hb
      rw [hbat] at hb
      rw [hnext]
      rcases List.mem_append.mp hb with hb2 | hb2
      · have := hbound b hb2
        omega
      · simp only [List.mem_singleton] at hb2
        subst hb2
        simp
    · rw [hbat, List.pairwise_append]
      refine ⟨hpair, by simp, ?_⟩
      intro a ha b2 hb2
      simp only [List.mem_singleton] at hb2
      subst hb2
      have hfa := hanyf a ha
      simp only
      intro hcc
      have hc1 : a.product_id = productId := hcc.1
      have hc2 : a.batch_code = code := hcc.2
      exact hfa (by simp [hc1, hc2])

theorem adjustmentStep_wf (st : LedgerState) (batchId : Nat) (delta : Int)
    (note : String) (user : Nat) (h : batchesWF st) :
    batchesWF (adjustmentStep st batchId delta note user) := by
  unfold adjustmentStep
  rcases hres : adjustment st batchId delta note user with err | st2
  · simp only [hres]
    exact h
  · simp only [hres]
    obtain ⟨b, hf, hnn0, hbat, hnext, _, _, _, _⟩ :=
      adjustment_ok_inversion st batchId delta note user st2 hres
    obtain ⟨hnn, hnodup, hbound, hpair⟩ := h
    have hbmem := List.mem_of_find?_eq_some hf
    have hbid : b.id = batchId := by simpa using List.find?_some hf
    have hprojupd : (st.batches.map (fun x =>
        if x.id == batchId then { x with quantity := x.quantity + delta } else x)).map
          (fun b => (b.id, b.product_id, b.batch_code)) =
        st.batches.map (fun b => (b.id, b.product_id, b.batch_code)) := by
      rw [List.map_map]
      refine List.map_congr_left ?_
      intro x _
      by_cases hx : x.id = batchId
      · simp [hx]
      · simp [hx]
    refine batchesWF_transfer st st2 ⟨hnn, hnodup, hbound, hpair⟩ ?_ ?_ hnext
    · rw [hbat]
      exact hprojupd
    · intro b2 hb2
      rw [hbat] at hb2
      rcases List.mem_map.mp hb2 with ⟨x, hx, rfl⟩
      by_cases hxid : x.id = batchId
      · have hxeq : x = b :=
          List.inj_on_of_nodup_map hnodup hx hbmem (by rw [hxid, hbid])
        rw [if_pos (by simpa using hxid)]
        simp only
        rw [hxeq]
        exact hnn0
      · rw [if_neg (by simpa using hxid)]
        exact hnn x hx

theorem checkoutStep_wf (st : LedgerState) (cart : List CartLine)
    (paymentMethod : String) (rate : ℚ) (cashier : Nat) (h : batchesWF st) :
    batchesWF (checkoutStep st cart paymentMethod rate cashier) := by
  unfold checkoutStep
  rcases hres : checkout st cart paymentMethod rate cashier with err | pair
  · simp only [hres]
    exact h
  · simp only [hres]
    rcases pair with ⟨sale, st2⟩
    obtain ⟨_, hq, lines, nb, hal, _, hst2⟩ :=
      checkout_ok_inversion st cart paymentMethod rate cashier sale st2 hres
    obtain ⟨hnn, hnodup, hbound, hpair⟩ := h
    obtain ⟨hproj, hnn2⟩ :=
      allocateLines_ok_wf cart st.batches lines nb hnodup hnn hq hal
    refine batchesWF_transfer st st2 ⟨hnn, hnodup, hbound, hpair⟩ ?_ ?_ ?_
    · rw [hst2]
      exact hproj
    · rw [hst2]
      exact hnn2
    · rw [hst2]

/-- C8: every ledger operation preserves the batch invariants — quantities
never negative and `(product_id, batch_code)` unique (with unique batch ids) —
and the failure cases behave as specified: `entry` fails with `DuplicateBatch`
on a repeated `(product, batch_code)` and `adjustment` fails with
`InvalidAdjustment` when the result would be negative, both leaving the state
unchanged. -/
theorem c8_ledger_invariants (st : LedgerState) (productId : Nat) (code : String)
    (qty : Int) (cost : ℚ) (expiration : Option Nat) (received : Nat)
    (note : String) (user : Nat) (batchId : Nat) (delta : Int)
    (cart : List CartLine) (paymentMethod : String) (rate : ℚ) (cashier : Nat)
    (b : Batch) (h : batchesWF st) :
    batchesWF (entryStep st productId code qty cost expiration received note user) ∧
    batchesWF (adjustmentStep st batchId delta note user) ∧
    batchesWF (checkoutStep st cart paymentMethod rate cashier) ∧
    ((∃ b0 ∈ st.batches, b0.product_id = productId ∧ b0.batch_code = code) →
      entry st productId code qty cost expiration received note user =
          .error .DuplicateBatch ∧
        entryStep st productId code qty cost expiration received note user = st) ∧
    (st.batches.find? (fun x => x.id == batchId) = some b →
      b.quantity + delta < 0 →
      adjustment st batchId delta note user = .error .InvalidAdjustment ∧
        adjustmentStep st batchId delta note user = st) := by
  refine ⟨entryStep_wf st productId code qty cost expiration received note user h,
    adjustmentStep_wf st batchId delta note user h,
    checkoutStep_wf st cart paymentMethod rate cashier h, ?_, ?_⟩
  · intro hdup
    have hany : st.batches.any
        (fun x => x.product_id == productId && x.batch_code == code) = true := by
      rcases hdup with ⟨b0, hb0, hp, hc⟩
      exact List.any_eq_true.mpr ⟨b0, hb0, by simp [hp, hc]⟩
    have herr : entry st productId code qty cost expiration received note user =
        .error .DuplicateBatch := by
      unfold entry
      rw [if_pos hany]
    refine ⟨herr, ?_⟩
    unfold entryStep
    rw [herr]
  · intro hfind hneg
    have herr : adjustment st batchId delta note user = .error .InvalidAdjustment := by
      unfold adjustment
      rw [hfind]
      dsimp only
      rw [if_pos hneg]
    refine ⟨herr, ?_⟩
    unfold adjustmentStep
    rw [herr]

/-- C8 witness: the invariants hold after an entry on the empty state, and
the duplicate-batch failure fires on a state already holding the batch code,
hypotheses discharged at concrete inputs. -/
theorem c8_witness :
    batchesWF (entryStep initState 1 "L1" 5 2 none 20250101 "" 1) ∧
    entry demoState 1 "L1" 5 2 none 20250101 "" 1 = .error .DuplicateBatch := by
  constructor
  · exact (c8_ledger_invariants initState 1 "L1" 5 2 none 20250101 "" 1 1 0 [] ""
      (16 / 100) 1 demoBatch (by simp [batchesWF, initState])).1
  · exact ((c8_ledger_invariants demoState 1 "L1" 5 2 none 20250101 "" 1 1 0 [] ""
      (16 / 100) 1 demoBatch (by simp [batchesWF, demoState, demoBatch])).2.2.2.1
      ⟨demoBatch, by simp [demoState], rfl, rfl⟩).1

theorem greedyTake_ne_nil (l : List Batch) (q : Int) (plan : List (Nat × Int))
    (hq : 0 < q) (h : greedyTake l q = some plan) : plan ≠ [] := by
  cases l with
  | nil =>
    rw [show greedyTake [] q = if q ≤ 0 then some [] else none from rfl,
      if_neg (by omega)] at h
    simp at h
  | cons b rest =>
    simp only [greedyTake, if_neg (show ¬ q ≤ 0 by omega)] at h
    rcases hres : greedyTake rest (q - min b.quantity q) with _ | plan2
    · rw [hres] at h
      simp at h
    · rw [hres] at h
      simp only [Option.some.injEq] at h
      rw [← h]
      simp

theorem allocate_plan_ne_nil (batches : List Batch) (productId : Nat) (q : Int)
    (plan : List (Nat × Int)) (hq : 0 < q)
    (h : allocate batches productId q = .ok plan) : plan ≠ [] :=
  greedyTake_ne_nil _ q plan hq (allocate_ok_of_greedy batches productId q plan h)

theorem allocateLines_first_nonempty (batches : List Batch) (line : CartLine)
    (rest : List CartLine) (lines : List SaleLine) (nb : List Batch)
    (hq : 0 < line.quantity)
    (h : allocateLines batches (line :: rest) = .ok (lines, nb)) :
    ∃ l0 lines2, lines = l0 :: lines2 ∧ l0.batches ≠ [] := by
  unfold allocateLines at h
  rcases hal : allocate batches line.product_id line.quantity with e | plan
  · rw [hal] at h
    simp at h
  · rw [hal] at h
    dsimp only at h
    rcases hrest : allocateLines (applyPlan batches plan) rest with e | pair
    · rw [hrest] at h
      simp at h
    · rw [hrest] at h
      rcases pair with ⟨lines2, nb2⟩
      simp only [Except.ok.injEq, Prod.mk.injEq] at h
      rcases h with ⟨hl, _⟩
      refine ⟨_, lines2, hl.symm, ?_⟩
      simp only
      exact allocate_plan_ne_nil batches line.product_id line.quantity plan hq hal

theorem checkout_movs_ref (lines : List SaleLine) (cashier sid : Nat) :
    ∀ m ∈ lines.flatMap (fun l => l.batches.map (fun e =>
      ({ product_batch_id := e.1, movement_type := .SALE, quantity := -e.2,
         user_id := cashier, reference_id := some sid, note := "" } : Movement))),
      m.movement_type = .SALE ∧ m.reference_id = some sid := by
  intro m hm
  rcases List.mem_flatMap.mp hm with ⟨l, _, hm2⟩
  rcases List.mem_map.mp hm2 with ⟨e, _, rfl⟩
  exact ⟨rfl, rfl⟩

/-- The combined coordinator invariant: outbox/sale/movement correspondence
plus sale-id freshness. -/
def ledgerInv (st : LedgerState) : Prop := outboxInv st ∧ freshInv st

theorem ledgerInv_transfer (st st2 : LedgerState)
    (hout : st2.outbox = st.outbox) (hsales : st2.sales = st.sales)
    (hnext : st2.nextSaleId = st.nextSaleId)
    (hmov : ∀ n : Nat,
      (∃ m ∈ st2.movements, m.movement_type = .SALE ∧ m.reference_id = some n) ↔
      (∃ m ∈ st.movements, m.movement_type = .SALE ∧ m.reference_id = some n))
    (hmovfresh : ∀ m ∈ st2.movements, ∀ n : Nat,
      m.reference_id = some n → n < st.nextSaleId)
    (h : ledgerInv st) : ledgerInv st2 := by
  obtain ⟨⟨hcount, hiff⟩, hfO, hfS, hfM⟩ := h
  refine ⟨⟨?_, ?_⟩, ?_, ?_, ?_⟩
  · intro s hs
    rw [hout]
    exact hcount s (hsales ▸ hs)
  · intro n
    rw [hout]
    exact (hmov n).trans (hiff n)
  · rw [hout, hnext]
    exact hfO
  · rw [hsales, hnext]
    exact hfS
  · intro m hm n hr
    rw [hnext]
    exact hmovfresh m hm n hr

theorem ledgerInv_entryStep (st : LedgerState) (productId : Nat) (code : String)
    (qty : Int) (cost : ℚ) (expiration : Option Nat) (received : Nat)
    (note : String) (user : Nat) (h : ledgerInv st) :
    ledgerInv (entryStep st productId code qty cost expiration received note user) := by
  unfold entryStep
  rcases hres : entry st productId code qty cost expiration received note user
    with err | st2
  · simp only [hres]
    exact h
  · simp only [hres]
    obtain ⟨_, _, _, _, hout, hsales, hnext, hmovs⟩ :=
      entry_ok_inversion st productId code qty cost expiration received note user
        st2 hres
    refine ledgerInv_transfer st st2 hout hsales hnext ?_ ?_ h
    · intro n
      rw [hmovs]
      constructor
      · rintro ⟨m, hm, hty, hr⟩
        rcases List.mem_append.mp hm with hm2 | hm2
        · exact ⟨m, hm2, hty, hr⟩
        · simp only [List.mem_singleton] at hm2
          subst hm2
          simp at hty
      · rintro ⟨m, hm, hty, hr⟩
        exact ⟨m, List.mem_append.mpr (Or.inl hm), hty, hr⟩
    · intro m hm n hr
      rw [hmovs] at hm
      rcases List.mem_append.mp hm with hm2 | hm2
      · exact h.2.2.2 m hm2 n hr
      · simp only [List.mem_singleton] at hm2
        subst hm2
        simp at hr

theorem ledgerInv_adjustmentStep (st : LedgerState) (batchId : Nat) (delta : Int)
    (note : String) (user : Nat) (h : ledgerInv st) :
    ledgerInv (adjustmentStep st batchId delta note user) := by
  unfold adjustmentStep
  rcases hres : adjustment st batchId delta note user with err | st2
  · simp only [hres]
    exact h
  · simp only [hres]
    obtain ⟨b, _, _, _, _, hout, hsales, hnext, hmovs⟩ :=
      adjustment_ok_inversion st batchId delta note user st2 hres
    refine ledgerInv_transfer st st2 hout hsales hnext ?_ ?_ h
    · intro n
      rw [hmovs]
      constructor
      · rintro ⟨m, hm, hty, hr⟩
        rcases List.mem_append.mp hm with hm2 | hm2
        · exact ⟨m, hm2, hty, hr⟩
        · simp only [List.mem_singleton] at hm2
          subst hm2
          simp at hty
      · rintro ⟨m, hm, hty, hr⟩
        exact ⟨m, List.mem_append.mpr (Or.inl hm), hty, hr⟩
    · intro m hm n hr
      rw [hmovs] at hm
      rcases List.mem_append.mp hm with hm2 | hm2
      · exact h.2.2.2 m hm2 n hr
      · simp only [List.mem_singleton] at hm2
        subst hm2
        simp at hr

theorem ledgerInv_checkoutStep (st : LedgerState) (cart : List CartLine)
    (paymentMethod : String) (rate : ℚ) (cashier : Nat) (h : ledgerInv st) :
    ledgerInv (checkoutStep st cart paymentMethod rate cashier) := by
  unfold checkoutStep
  rcases hres : checkout st cart paymentMethod rate cashier with err | pair
  · simp only [hres]
    exact h
  · simp only [hres]
    rcases pair with ⟨sale, st2⟩
    obtain ⟨hne, hq, lines, nb, hal, hsale, hst2⟩ :=
      checkout_ok_inversion st cart paymentMethod rate cashier sale st2 hres
    obtain ⟨⟨hcount, hiff⟩, hfO, hfS, hfM⟩ := h
    have hsid : sale.id = st.nextSaleId := by rw [hsale]
    have hmref := checkout_movs_ref lines cashier st.nextSaleId
    have hmovs_ne : ∃ m, m ∈ lines.flatMap (fun l => l.batches.map (fun e =>
        ({ product_batch_id := e.1, movement_type := .SALE, quantity := -e.2,
           user_id := cashier, reference_id := some st.nextSaleId,
           note := "" } : Movement))) := by
      rcases cart with _ | ⟨line, rest⟩
      · exact absurd rfl hne
      · have hq0 : 0 < line.quantity := by
          have := hq line (List.mem_cons_self line rest)
          omega
        rcases allocateLines_first_nonempty st.batches line rest lines nb hq0 hal
          with ⟨l0, lines2, hl, hnel⟩
        rcases List.exists_mem_of_ne_nil l0.batches hnel with ⟨e, he⟩
        refine ⟨_, List.mem_flatMap.mpr ⟨l0, ?_, List.mem_map.mpr ⟨e, he, rfl⟩⟩⟩
        rw [hl]
        exact List.mem_cons_self l0 lines2
    constructor
    · constructor
      · -- exactly one outbox event per sale
        intro s hs
        rw [hst2] at hs ⊢
        simp only [List.mem_append, List.mem_singleton] at hs
        rw [List.filter_append]
        rcases hs with hs | hs
        · have hlt : s.id < st.nextSaleId := hfS s hs
          have hone := hcount s hs
          rw [List.length_append, hone]
          have : (List.filter (fun e => e.aggregate_id == s.id)
              [{ id := st.nextEventId, event_type := "sale_created",
                 aggregate_id := st.nextSaleId, payload := sale,
                 status := .PENDING, retry_count := 0, error_message := none,
                 processed_at := none }] : List OutboxEvent) = [] := by
            simp only [List.filter_eq_nil_iff]
            intro e he
            simp only [List.mem_singleton] at he
            subst he
            simp only [beq_iff_eq]
            omega
          rw [this]
          simp
        · subst hs
          have hold : st.outbox.filter (fun e => e.aggregate_id == s.id) = [] := by
            simp only [List.filter_eq_nil_iff]
            intro e he
            have := hfO e he
            simp only [beq_iff_eq]
            omega
          rw [hold]
          simp [hsid]
      · -- SALE movement iff outbox event
        intro n
        rw [hst2]
        simp only [List.mem_append, List.mem_singleton]
        by_cases hn : n = st.nextSaleId
        · subst hn
          constructor
          · intro _
            exact ⟨_, Or.inr rfl, rfl⟩
          · intro _
            rcases hmovs_ne with ⟨m, hm⟩
            exact ⟨m, Or.inr hm, (hmref m hm).1, (hmref m hm).2⟩
        · constructor
          · rintro ⟨m, hm | hm, hty, hr⟩
            · rcases (hiff n).mp ⟨m, hm, hty, hr⟩ with ⟨e, he, hagg⟩
              exact ⟨e, Or.inl he, hagg⟩
            · have := (hmref m hm).2
              rw [this] at hr
              simp only [Option.some.injEq] at hr
              exact absurd hr.symm hn
          · rintro ⟨e, he | he, hagg⟩
            · rcases (hiff n).mpr ⟨e, he, hagg⟩ with ⟨m, hm, hty, hr⟩
              exact ⟨m, Or.inl hm, hty, hr⟩
            · subst he
              simp only at hagg
              exact absurd hagg.symm hn
    · -- freshness
      refine ⟨?_, ?_, ?_⟩
      · intro e he
        rw [hst2] at he ⊢
        simp only [List.mem_append, List.mem_singleton] at he
        rcases he with he | he
        · have := hfO e he
          simp only
          omega
        · subst he
          simp
      · intro s hs
        rw [hst2] at hs ⊢
        simp only [List.mem_append, List.mem_singleton] at hs
        rcases hs with hs | hs
        · have := hfS s hs
          simp only
          omega
        · subst hs
          simp only [hsid]
          omega
      · intro m hm n hr
        rw [hst2] at hm ⊢
        simp only [List.mem_append] at hm
        rcases hm with hm | hm
        · have := hfM m hm n hr
          simp only
          omega
        · have := (hmref m hm).2
          rw [this] at hr
          simp only [Option.some.injEq] at hr
          simp only
          omega

theorem ledgerInv_init : ledgerInv initState := by
  refine ⟨⟨?_, ?_⟩, ?_, ?_, ?_⟩ <;> simp [initState, outboxInv, freshInv]

theorem ledgerInv_runOps (ops : List LedgerOp) (st : LedgerState)
    (h : ledgerInv st) : ledgerInv (runOps st ops) := by
  induction ops generalizing st with
  | nil => exact h
  | cons op rest ih =>
    show ledgerInv (runOps (applyOp st op) rest)
    refine ih (applyOp st op) ?_
    cases op with
    | checkout cart pm rate cashier => exact ledgerInv_checkoutStep st cart pm rate cashier h
    | entry productId code qty cost expiration received note user =>
      exact ledgerInv_entryStep st productId code qty cost expiration received
        note user h
    | adjustment batchId delta note user =>
      exact ledgerInv_adjustmentStep st batchId delta note user h

/-- C3: in every state reachable by ledger operations from the empty state,
each committed sale has exactly one outbox event keyed by its sale id, and a
SALE inventory movement referencing a sale id exists iff the outbox event with
that aggregate id exists — both are written in the same atomic checkout
transaction, so there are no orphans in either direction. -/
theorem c3_outbox_sale_correspondence (ops : List LedgerOp) :
    (∀ s ∈ (runOps initState ops).sales,
      ((runOps initState ops).outbox.filter
        (fun e => e.aggregate_id == s.id)).length = 1) ∧
    (∀ n : Nat,
      (∃ m ∈ (runOps initState ops).movements,
        m.movement_type = .SALE ∧ m.reference_id = some n) ↔
      (∃ e ∈ (runOps initState ops).outbox, e.aggregate_id = n)) :=
  (ledgerInv_runOps ops initState ledgerInv_init).1

/-- C3 witness: the movement/outbox equivalence at sale id 0 after a concrete
entry-then-checkout run. -/
theorem c3_witness :
    (∃ m ∈ (runOps initState [.entry 1 "L1" 5 2 none 20250101 "" 1,
        .checkout [⟨1, 3, 2⟩] "cash" (16 / 100) 9]).movements,
      m.movement_type = .SALE ∧ m.reference_id = some 0) ↔
    (∃ e ∈ (runOps initState [.entry 1 "L1" 5 2 none 20250101 "" 1,
        .checkout [⟨1, 3, 2⟩] "cash" (16 / 100) 9]).outbox,
      e.aggregate_id = 0) :=
  (c3_outbox_sale_correspondence [.entry 1 "L1" 5 2 none 20250101 "" 1,
    .checkout [⟨1, 3, 2⟩] "cash" (16 / 100) 9]).2 0

end Supermercado
